import Mathlib

/-! # DynamicDriver: a shallow embedding of the serial protocol cycle

The development embeds `src/DynamicDriver.cpp` and `src/DynamicDriver.h`:
the byte-width table `getSize`, the checksum `Fletcher16`, the helpers
`expectNumberOfBytesToArrive` and `WriteError`, and the protocol cycle
`DynamicDriver::loop`.

Conventions of the embedding.

* Bytes and machine integers are natural numbers; a store into a `byte`
  variable reduces modulo 256, `unsigned int` is the 16-bit type of the AVR
  target of the library.
* The transport `Serial` is a pair of byte sequences: `rx`, the bytes the host
  delivers to the device in the course of the cycle, and `tx`, the bytes the
  device has written so far.  A deadline-bounded wait for `n` bytes succeeds
  exactly when `n` bytes are present in `rx`; the unbounded wait of the
  synchronizer never ends when fewer than four bytes are delivered, which the
  embedding records as the status `blocked`.
* Behaviour that C++ leaves undefined (an index outside an array, the use of a
  missing registry entry or of an uninitialised value) ends the cycle with the
  status `fault`; the bytes written before that point are kept in the outcome.
* Pointers into the data buffer are offsets into it.
-/

namespace DynamicDriver

/-! ## Constants of `DynamicDriver.cpp` and `DynamicDriver.h` -/

def SYNC_REQUEST_LENGTH : Nat := 4
def CMD_HANDSHAKE_LENGTH : Nat := 3

def START_OF_REQUEST_MARKER : Nat := 0xfb
def ALL_BYTES_WRITTEN : Nat := 0xfa
def START_OF_RESPONSE_MARKER : Nat := 0xf9
def ERROR_MARKER : Nat := 0xef
def VOID_RETURN_RESULT : Nat := 0xfc

def PROTOCOL_VERSION_MAJOR : Nat := 1
def PROTOCOL_VERSION_MINOR : Nat := 2

def CMD_HANDSHAKE_INITIATE : Nat := 0x01
def ACK_HANDSHAKE_INITIATE : Nat := 0x02

def dataMaxSize : Nat := 128
def dataRealSize : Nat := 128 + 4

/-- Number of entries of the member array `void* argumentsData[15]`. -/
def argumentsDataSize : Nat := 15

/-! ## Sizes of the C++ types named by `getSize` -/

/-- Modelled from the spec: the typedef `boolean` comes from `arduino.h`, which
is not among the sources; the byte-width table of the spec gives boolean = 1. -/
def sizeofBoolean : Nat := 1

/-- Modelled from the spec: the typedef `byte` comes from `arduino.h`, which is
not among the sources; the spec gives the unsigned 8-bit type the width 1. -/
def sizeofByte : Nat := 1

/-- Modelled from the spec: the typedef `word` comes from `arduino.h`, which is
not among the sources; the byte-width table of the spec gives word = 2. -/
def sizeofWord : Nat := 2

/-- The value of `sizeof(char)` and of `sizeof(unsigned char)`, 1 by definition. -/
def sizeofChar : Nat := 1

/-- The value of `sizeof(int16_t)` and of `sizeof(uint16_t)`: 16 bits in 8-bit bytes. -/
def sizeofInt16 : Nat := 2

/-- The value of `sizeof(unsigned short)` on the targets of the library. -/
def sizeofUnsignedShort : Nat := 2

/-- The value of `sizeof(long long)` and of `sizeof(unsigned long long)`: the
type has 64 bits, eight 8-bit bytes. -/
def sizeofLongLong : Nat := 8

/-! ## `FunctionType` and `getSize` -/

/-- The enumeration `FunctionType` of `DynamicDriver.h`, in declaration order. -/
inductive FunctionType where
  | BOOLEANT
  | CHART
  | UCHART
  | BYTET
  | INTT
  | UINTT
  | WORD
  | LONG
  | ULONG
  | SHORT
  | VOIDT
deriving DecidableEq

/-- The function `getSize`.  The switch has a case for every variant except
`VOIDT` and no default, so for `VOIDT` the local `resultSize` is returned
without ever being assigned: the result is `none`, an indeterminate value. -/
def getSize : FunctionType → Option Nat
  | .BOOLEANT => some sizeofBoolean
  | .CHART => some sizeofChar
  | .UCHART => some sizeofChar
  | .BYTET => some sizeofByte
  | .INTT => some sizeofInt16
  | .UINTT => some sizeofInt16
  | .WORD => some sizeofWord
  | .LONG => some sizeofLongLong
  | .ULONG => some sizeofLongLong
  | .SHORT => some sizeofUnsignedShort
  | .VOIDT => none

/-! ## `Fletcher16` -/

/-- One pass through the body of the loop of `Fletcher16` with the byte `d`:
`sum1 = (sum1 + d) % 255; sum2 = (sum2 + sum1) % 255;` on 16-bit unsigned
values, the pair being `(sum1, sum2)`. -/
def Fletcher16.step (sums : Nat × Nat) (d : Nat) : Nat × Nat :=
  let sum1 := ((sums.1 + d) % 65536) % 255
  let sum2 := ((sums.2 + sum1) % 65536) % 255
  (sum1, sum2)

/-- The loop of `Fletcher16`: `k` iterations remain, `idx` is the loop index,
`sums` the two running sums. -/
def Fletcher16.go (data : List Nat) : Nat → Nat → Nat × Nat → Nat × Nat
  | 0, _, sums => sums
  | k + 1, idx, sums => Fletcher16.go data k (idx + 1) (Fletcher16.step sums (data.getD idx 0))

/-- The function `Fletcher16(data, count)`: returns `(sum2 << 8) | sum1`. -/
def Fletcher16 (data : List Nat) (count : Nat) : Nat :=
  let sums := Fletcher16.go data count 0 (0, 0)
  ((sums.2 <<< 8) ||| sums.1) % 65536

/-! ## The transport -/

/-- The serial line: `rx` are the bytes delivered by the host and not yet read,
`tx` the bytes written by the device, oldest first. -/
structure Serial where
  rx : List Nat
  tx : List Nat
deriving DecidableEq

/-- The call `Serial.available()`. -/
def Serial.available (s : Serial) : Nat := s.rx.length

/-- The call `Serial.read()`: the next byte, or `-1` when none is present. -/
def Serial.read (s : Serial) : Int × Serial :=
  match s.rx with
  | [] => (-1, s)
  | b :: r => ((b : Int), { s with rx := r })

/-- The call `Serial.write(b)` for a single value: one byte is sent. -/
def Serial.write (s : Serial) (b : Nat) : Serial :=
  { s with tx := s.tx ++ [b % 256] }

/-- Conversion of an `int` to `byte`. -/
def toByte (x : Int) : Nat := (x % 256).toNat

/-- The function `WriteError`: three error markers (the loop runs for
`i = 0, 1, 2`). -/
def WriteError (s : Serial) : Serial :=
  ((s.write ERROR_MARKER).write ERROR_MARKER).write ERROR_MARKER

/-- The function `expectNumberOfBytesToArrive`.  The parameter has type `byte`,
so the requested count is reduced modulo 256.  The wait ends with the bytes the
host delivers by the deadline, which are the bytes of `rx`. -/
def expectNumberOfBytesToArrive (numberOfBytes : Nat) (s : Serial) : Bool × Serial :=
  let n := numberOfBytes % 256
  if s.available < n then (false, WriteError s) else (true, s)

/-! ## The driver state and the outcome of a cycle -/

/-- The data members of `class DynamicDriver` that `loop` uses.  The array
`data` has `dataRealSize` entries and `argumentsData` has fifteen; the entries
of `argumentsData` are offsets into `data`. -/
structure DriverState where
  data : List Nat
  commandByte : Nat
  lengthByte : Nat
  syncByte : Nat
  fletcherByte1 : Nat
  fletcherByte2 : Nat
  fletcher16 : Nat
  f0 : Nat
  f1 : Nat
  c0 : Nat
  c1 : Nat
  argumentsData : List Nat
deriving DecidableEq

/-- The arrays of the state have their declared sizes. -/
def DriverState.WellFormed (st : DriverState) : Prop :=
  st.data.length = dataRealSize ∧ st.argumentsData.length = argumentsDataSize

instance (st : DriverState) : Decidable st.WellFormed := by
  unfold DriverState.WellFormed
  exact inferInstance

/-- The local array `byte buf[4]` of `loop`, which is declared without an
initialiser: its four bytes are whatever the stack holds. -/
structure StackBuf where
  b0 : Nat
  b1 : Nat
  b2 : Nat
  b3 : Nat
deriving DecidableEq

/-- The bytes of the array in index order. -/
def StackBuf.toList (b : StackBuf) : List Nat := [b.b0, b.b1, b.b2, b.b3]

/-- A registered callable (`class Function`): its return type, its argument
types (`getArgumentsCount` is the length of the list) and `execute`.  The call
`execute(arguments, returnValue)` receives the pointer table, here the data
buffer together with the offsets stored in `argumentsData`; its value is the
content of the result buffer after the call, read as a little-endian unsigned
number.  The callable leaves the driver state and the transport untouched. -/
structure Function where
  getReturnType : FunctionType
  getArgumentTypes : List FunctionType
  execute : List Nat → List Nat → Nat

/-- How a cycle ends: `returned` when `loop` returns to its caller, `blocked`
when the wait for the sync bytes never ends, `fault` when the cycle reaches
undefined behaviour. -/
inductive Status where
  | returned
  | blocked
  | fault
deriving DecidableEq

/-- One invocation of `execute`: the command, the data buffer and the pointer
table handed to the callable. -/
structure Call where
  cmd : Nat
  data : List Nat
  arguments : List Nat
deriving DecidableEq

/-- The observable result of one cycle: how it ended, the driver state and the
transport at that point, the commands passed to `getFunction` and the
invocations of callables, both in order. -/
structure Outcome where
  status : Status
  st : DriverState
  serial : Serial
  lookups : List Nat
  calls : List Call
deriving DecidableEq

/-! ## The frame reader: lines 57 to 99 of `loop` -/

/-- The reset loop `for (int i = 0; i < 128; i++) { data[i] = 0x00; }`. -/
def resetData (data : List Nat) : List Nat :=
  (List.range 128).foldl (fun d i => d.set i 0) data

/-- The loop `for (int i = 0; i < lengthByte + 4; i++) { data[i] = Serial.read(); }`
with `n` iterations remaining at index `i`.  A store at an index outside the
array stops the loop with the flag `false`. -/
def readPayload : Nat → Nat → List Nat → Serial → Bool × List Nat × Serial
  | 0, _, data, s => (true, data, s)
  | n + 1, i, data, s =>
    if i < dataRealSize then
      let r := s.read
      readPayload n (i + 1) (data.set i (toByte r.1)) r.2
    else (false, data, s)

/-- What a phase of the cycle hands on: either the cycle is over with an
outcome, or it proceeds with the driver state and the transport. -/
inductive Phase where
  | abort (o : Outcome)
  | proceed (st : DriverState) (s : Serial)
deriving DecidableEq

/-- Sequencing of phases. -/
def Phase.andThen (p : Phase) (next : DriverState → Serial → Phase) : Phase :=
  match p with
  | .abort o => .abort o
  | .proceed st s => next st s

/-- Lines 62 to 73 of `loop`: the blocking wait for four bytes, the comparison
of the bytes read one at a time with `ff fe fd fc`, and the acknowledgement. -/
def synchronize (st : DriverState) (s : Serial) : Phase :=
  if s.available < SYNC_REQUEST_LENGTH then .abort ⟨.blocked, st, s, [], []⟩ else
  let r1 := s.read
  let st1 := { st with syncByte := toByte r1.1 }
  if st1.syncByte ≠ 0xff then .abort ⟨.returned, st1, r1.2, [], []⟩ else
  let r2 := r1.2.read
  let st2 := { st1 with syncByte := toByte r2.1 }
  if st2.syncByte ≠ 0xfe then .abort ⟨.returned, st2, r2.2, [], []⟩ else
  let r3 := r2.2.read
  let st3 := { st2 with syncByte := toByte r3.1 }
  if st3.syncByte ≠ 0xfd then .abort ⟨.returned, st3, r3.2, [], []⟩ else
  let r4 := r3.2.read
  let st4 := { st3 with syncByte := toByte r4.1 }
  if st4.syncByte ≠ 0xfc then .abort ⟨.returned, st4, r4.2, [], []⟩ else
  .proceed st4 ((((r4.2.write 0xfc).write 0xfd).write 0xfe).write 0xff)

/-- Lines 78 to 88 of `loop`: the header `FB <cmd> <len>` and its echo. -/
def readHeader (st : DriverState) (s : Serial) : Phase :=
  let e := expectNumberOfBytesToArrive CMD_HANDSHAKE_LENGTH s
  if e.1 = false then .abort ⟨.returned, st, e.2, [], []⟩ else
  let r1 := e.2.read
  if r1.1 ≠ (START_OF_REQUEST_MARKER : Int) then .abort ⟨.returned, st, r1.2, [], []⟩ else
  let r2 := r1.2.read
  let st1 := { st with commandByte := toByte r2.1 }
  let r3 := r2.2.read
  let st2 := { st1 with lengthByte := toByte r3.1 }
  .proceed st2
    (((r3.2.write st2.lengthByte).write st2.commandByte).write START_OF_REQUEST_MARKER)

/-- Lines 91 to 95 of `loop`: the wait for `lengthByte + 4` bytes, their
transfer into the buffer and the extraction of the two footer bytes. -/
def readFrame (st : DriverState) (s : Serial) : Phase :=
  let e := expectNumberOfBytesToArrive (st.lengthByte + 4) s
  if e.1 = false then .abort ⟨.returned, st, e.2, [], []⟩ else
  let p := readPayload (st.lengthByte + 4) 0 st.data e.2
  let st1 := { st with data := p.2.1 }
  if p.1 = false then .abort ⟨.fault, st1, p.2.2, [], []⟩ else
  let st2 := { st1 with fletcherByte1 := st1.data.getD (st1.lengthByte + 2) 0 }
  let st3 := { st2 with fletcherByte2 := st2.data.getD (st2.lengthByte + 3) 0 }
  .proceed st3 p.2.2

/-- Lines 98 and 99 of `loop`: the terminator `FA`. -/
def readTerminator (st : DriverState) (s : Serial) : Phase :=
  let e := expectNumberOfBytesToArrive 1 s
  if e.1 = false then .abort ⟨.returned, st, e.2, [], []⟩ else
  let r := e.2.read
  if r.1 ≠ (ALL_BYTES_WRITTEN : Int) then .abort ⟨.returned, st, r.2, [], []⟩ else
  .proceed st r.2

/-- Lines 57 to 99 of `loop`: reset, synchronizer, header, frame and
terminator, in this order. -/
def receive (st : DriverState) (s : Serial) : Phase :=
  (((synchronize { st with data := resetData st.data } s).andThen readHeader).andThen
    readFrame).andThen readTerminator

/-! ## The integrity check: lines 101 to 112 of `loop` -/

/-- Lines 102 to 106: the checksum of the first `lengthByte + 2` bytes of the
buffer and the two complement bytes derived from it.  The operands are 16-bit
unsigned; both subtractions are from 255 of a remainder modulo 255 and cannot
wrap. -/
def computeChecks (st : DriverState) : DriverState :=
  let fletcher16 := Fletcher16 st.data (st.lengthByte + 2)
  let f0 := fletcher16 &&& 0xff
  let f1 := (fletcher16 >>> 8) &&& 0xff
  let c0 := 0xff - (((f0 + f1) % 65536) % 0xff)
  let c1 := 0xff - (((f0 + c0) % 65536) % 0xff)
  { st with fletcher16 := fletcher16, f0 := f0, f1 := f1, c0 := c0, c1 := c1 }

/-- The condition of the sanity check at line 109. -/
def sanityCheckFails (st : DriverState) : Prop :=
  st.c0 ≠ st.fletcherByte1 ∨ st.c1 ≠ st.fletcherByte2 ∨
    st.commandByte ≠ st.data.getD 0 0 ∨ st.lengthByte ≠ st.data.getD 1 0

instance (st : DriverState) : Decidable (sanityCheckFails st) := by
  unfold sanityCheckFails
  exact inferInstance

/-! ## Dispatch and marshaling: lines 116 to 221 of `loop` -/

/-- The argument loop of lines 139 to 144, at index `i` with offset `pos` and
the argument types still to be visited.  A store outside `argumentsData` and
the use of the indeterminate size of a `VOIDT` argument give `none`. -/
def sliceArguments : List FunctionType → Nat → Nat → List Nat → Option (List Nat)
  | [], _, _, argumentsData => some argumentsData
  | argument :: rest, i, pos, argumentsData =>
    if i < argumentsDataSize then
      match getSize argument with
      | some size => sliceArguments rest (i + 1) (pos + size) (argumentsData.set i pos)
      | none => none
    else none

/-- The switch of lines 165 to 211 on the return type: the one-byte types write
the result byte at once and leave `buf` alone; the other types load the result
as a 16-bit value and store its two bytes in `buf[0]` and `buf[1]`.  A signed
load is represented by its 16-bit pattern: masking with 255, before or after
the sign-propagating shift by 8, reads the same bits of the pattern. -/
def marshal (returnType : FunctionType) (result : Nat) (buf : StackBuf) (s : Serial) :
    StackBuf × Serial :=
  match returnType with
  | .BOOLEANT => (buf, s.write (result % 256))
  | .CHART => (buf, s.write (result % 256))
  | .UCHART => (buf, s.write (result % 256))
  | .BYTET => (buf, s.write (result % 256))
  | .INTT =>
    let int16 := result % 65536
    ({ buf with b0 := int16 &&& 255, b1 := (int16 >>> 8) &&& 255 }, s)
  | .UINTT =>
    let uint16 := result % 65536
    ({ buf with b0 := uint16 &&& 255, b1 := (uint16 >>> 8) &&& 255 }, s)
  | .WORD =>
    let uint16 := result % 65536
    ({ buf with b0 := uint16 &&& 255, b1 := (uint16 >>> 8) &&& 255 }, s)
  | .LONG =>
    let int16 := result % 65536
    ({ buf with b0 := int16 &&& 255, b1 := (int16 >>> 8) &&& 255 }, s)
  | .ULONG =>
    let uint16 := result % 65536
    ({ buf with b0 := uint16 &&& 255, b1 := (uint16 >>> 8) &&& 255 }, s)
  | .SHORT =>
    let int16 := result % 65536
    ({ buf with b0 := int16 &&& 255, b1 := (int16 >>> 8) &&& 255 }, s)
  | .VOIDT => (buf, s)

/-- The call `Serial.write(buf, size)`: the bytes `buf[i]`, `buf[i+1]`, ... are
sent one after the other, `n` of them remaining.  A read past the end of the
array stops with the flag `false`. -/
def writeBuffer (buf : List Nat) : Nat → Nat → Serial → Bool × Serial
  | 0, _, s => (true, s)
  | n + 1, i, s =>
    match buf[i]? with
    | some b => writeBuffer buf n (i + 1) (s.write b)
    | none => (false, s)

/-- Lines 116 to 221 of `loop`.  The allocation of the result buffer is taken
to succeed. -/
def dispatch (getFunction : Nat → Option Function) (buf : StackBuf)
    (st : DriverState) (s : Serial) : Outcome :=
  if st.commandByte = CMD_HANDSHAKE_INITIATE then
    ⟨.returned, st,
      ((((s.write START_OF_RESPONSE_MARKER).write 3).write ACK_HANDSHAKE_INITIATE).write
        PROTOCOL_VERSION_MAJOR).write PROTOCOL_VERSION_MINOR, [], []⟩
  else
    match getFunction st.commandByte with
    | none => ⟨.fault, st, s, [st.commandByte], []⟩
    | some function =>
      let returnType := function.getReturnType
      match sliceArguments function.getArgumentTypes 0 2 st.argumentsData with
      | none => ⟨.fault, st, s, [st.commandByte], []⟩
      | some argumentsData =>
        let st1 := { st with argumentsData := argumentsData }
        let call : Call := ⟨st1.commandByte, st1.data, argumentsData⟩
        if returnType = FunctionType.VOIDT then
          ⟨.returned, st1, (s.write START_OF_RESPONSE_MARKER).write VOID_RETURN_RESULT,
            [st.commandByte], [call]⟩
        else
          match getSize returnType with
          | none => ⟨.fault, st1, s, [st.commandByte], []⟩
          | some returnTypeSize =>
            let result := function.execute st1.data argumentsData
            let s1 := (s.write START_OF_RESPONSE_MARKER).write returnTypeSize
            let m := marshal returnType result buf s1
            let w := writeBuffer m.1.toList returnTypeSize 0 m.2
            ⟨if w.1 then .returned else .fault, st1, w.2, [st.commandByte], [call]⟩

/-- The member function `DynamicDriver::loop`: one protocol cycle.  The
parameters are the registry `getFunction`, the content of the uninitialised
local `buf`, the driver state left by earlier cycles and the transport. -/
def loop (getFunction : Nat → Option Function) (buf : StackBuf)
    (st : DriverState) (s : Serial) : Outcome :=
  match receive st s with
  | .abort o => o
  | .proceed st1 s1 =>
    let st2 := computeChecks st1
    if sanityCheckFails st2 then ⟨.returned, st2, WriteError s1, [], []⟩
    else dispatch getFunction buf st2 s1

/-! ## Requests as the host builds them (sections 4.3 and 6 of the specification) -/

/-- The sync pattern `FF FE FD FC` sent by the host. -/
def syncPattern : List Nat := [0xff, 0xfe, 0xfd, 0xfc]

/-- The sync acknowledgement `FC FD FE FF` followed by the header echo
`<len> <cmd> FB`: what the device has written when the payload phase begins. -/
def ackAndEcho (cmd len : Nat) : List Nat := [0xfc, 0xfd, 0xfe, 0xff, len, cmd, 0xfb]

/-- The footer of a request, following section 4.3 of the specification: the
checksum is taken over `<cmd> <len> <payload>`, `f0` and `f1` are its low and
high bytes, and `c0 = 255 - ((f0 + f1) mod 255)`, `c1 = 255 - ((f0 + c0) mod 255)`. -/
def frameFooter (cmd len : Nat) (payload : List Nat) : Nat × Nat :=
  let bytes := cmd :: len :: payload
  let f := Fletcher16 bytes bytes.length
  let f0 := f % 256
  let f1 := (f / 256) % 256
  let c0 := 255 - ((f0 + f1) % 255)
  let c1 := 255 - ((f0 + c0) % 255)
  (c0, c1)

/-- The bytes of one request on the wire, following the table of section 6:
sync, header `FB <cmd> <len>`, frame `<cmd> <len> <payload> <chk0> <chk1>`,
terminator `FA`. -/
def requestBytes (cmd len : Nat) (payload : List Nat) (chk0 chk1 : Nat) : List Nat :=
  syncPattern ++ [0xfb, cmd, len] ++ (cmd :: len :: payload ++ [chk0, chk1]) ++ [0xfa]

/-- The driver state when the frame reader has stored a frame whose bytes are
`body`: the buffer holds `body` followed by what the reset left behind, and
the two footer bytes have been copied out of it. -/
def receivedState (st : DriverState) (cmd len : Nat) (body : List Nat) : DriverState :=
  { st with
    data := body ++ (resetData st.data).drop body.length
    syncByte := 0xfc
    commandByte := cmd
    lengthByte := len
    fletcherByte1 := body.getD (len + 2) 0
    fletcherByte2 := body.getD (len + 3) 0 }

/-- The driver state when the integrity check has run on that frame. -/
def checkedState (st : DriverState) (cmd len : Nat) (body : List Nat) : DriverState :=
  computeChecks (receivedState st cmd len body)

/-! ## Example data -/

/-- A driver state as an earlier cycle may leave it: every buffer byte is `0x55`. -/
def exampleState : DriverState :=
  { data := List.replicate 132 0x55
    commandByte := 7
    lengthByte := 9
    syncByte := 0
    fletcherByte1 := 0
    fletcherByte2 := 0
    fletcher16 := 0
    f0 := 0
    f1 := 0
    c0 := 0
    c1 := 0
    argumentsData := List.replicate 15 0 }

/-- Some content of the uninitialised local `buf`. -/
def exampleBuf : StackBuf := ⟨0xaa, 0xbb, 0xcc, 0xdd⟩

/-- A callable with one unsigned 8-bit argument and a boolean result: whether
the argument is zero. -/
def exampleIsZero : Function :=
  { getReturnType := .BOOLEANT
    getArgumentTypes := [.BYTET]
    execute := fun data arguments => if data.getD (arguments.getD 0 0) 0 = 0 then 1 else 0 }

/-- A callable with one 16-bit argument and a 16-bit result: the argument plus
`0x0102`, modulo `2 ^ 16`. -/
def exampleAddWord : Function :=
  { getReturnType := .UINTT
    getArgumentTypes := [.UINTT]
    execute := fun data arguments =>
      (data.getD (arguments.getD 0 0) 0 + 256 * data.getD (arguments.getD 0 0 + 1) 0 + 0x0102)
        % 65536 }

/-- A callable without arguments whose result is the 64-bit constant
`0x1122334455667788`. -/
def exampleLong : Function :=
  { getReturnType := .LONG
    getArgumentTypes := []
    execute := fun _ _ => 0x1122334455667788 }

/-- A registry with three commands: `2`, `3` and `4`. -/
def exampleRegistry : Nat → Option Function
  | 2 => some exampleIsZero
  | 3 => some exampleAddWord
  | 4 => some exampleLong
  | _ => none

/-! ## Observations, index traces and closed forms -/

/-- The bytes written when a phase ends. -/
def Phase.tx (p : Phase) : List Nat :=
  match p with
  | .abort o => o.serial.tx
  | .proceed _ s => s.tx

/-- A callable that takes one unsigned 8-bit argument and returns nothing. -/
def exampleVoid : Function :=
  { getReturnType := .VOIDT
    getArgumentTypes := [.BYTET]
    execute := fun _ _ => 0 }

/-- A registry whose only command, `5`, returns nothing. -/
def exampleVoidRegistry : Nat → Option Function
  | 5 => some exampleVoid
  | _ => none

/-- The widths of the argument windows of a descriptor, in declaration order:
the static byte size of each argument type. -/
def argumentWidths (types : List FunctionType) : List Nat :=
  types.map (fun t => (getSize t).getD 0)

/-- The offset at which the `i`-th argument window starts according to the
specification: 2 plus the widths of the arguments before it. -/
def windowStart (types : List FunctionType) (i : Nat) : Nat :=
  2 + ((argumentWidths types).take i).sum

/-- The first half of the closed form of the checksum: the sum of the first
`n` bytes, modulo 255. -/
def closedSum1 (data : List Nat) (n : Nat) : Nat :=
  ((List.range n).map (fun i => data.getD i 0)).sum % 255

/-- The second half of the closed form of the checksum: the sum of the first
`n` bytes, the byte at index `i` weighted by `n - i`, modulo 255. -/
def closedSum2 (data : List Nat) (n : Nat) : Nat :=
  ((List.range n).map (fun i => (n - i) * data.getD i 0)).sum % 255

/-- The indices of `data` at which the transfer loop
`for (int i = 0; i < lengthByte + 4; i++) { data[i] = Serial.read(); }` stores,
in order: `n` iterations remain at index `i`. -/
def readPayloadIndices : Nat → Nat → List Nat
  | 0, _ => []
  | n + 1, i => i :: readPayloadIndices n (i + 1)

/-- The indices of `data` read by the footer extraction
`fletcherByte1 = data[lengthByte + 2]; fletcherByte2 = data[lengthByte + 3];`. -/
def footerIndices (lengthByte : Nat) : List Nat := [lengthByte + 2, lengthByte + 3]

/-- The indices of `data` read by the loop of `Fletcher16`, in order: `k`
iterations remain at index `idx`. -/
def Fletcher16.indices : Nat → Nat → List Nat
  | 0, _ => []
  | k + 1, idx => idx :: Fletcher16.indices k (idx + 1)

/-- The argument bytes a call hands to the callable: for each declared
argument, in order, the window of its width that starts at the offset stored
in the pointer table. -/
def argumentBytes (types : List FunctionType) (data table : List Nat) : List (List Nat) :=
  (List.range types.length).map
    (fun i => (data.drop (table.getD i 0)).take ((argumentWidths types).getD i 0))

/-- A callable whose result depends only on its argument bytes. -/
def Function.ReadsOnlyArguments (f : Function) : Prop :=
  ∀ data table data2 table2 : List Nat,
    argumentBytes f.getArgumentTypes data table =
      argumentBytes f.getArgumentTypes data2 table2 →
    f.execute data table = f.execute data2 table2

/-- What a recorded call passed to the callable: the command and the argument
bytes of the callable registered for it. -/
def callBytes (getFunction : Nat → Option Function) (c : Call) : Nat × List (List Nat) :=
  (c.cmd,
    match getFunction c.cmd with
    | some f => argumentBytes f.getArgumentTypes c.data c.arguments
    | none => [])

/-- Two outcomes that cannot be told apart from outside the driver: the same
status, the same transport (what was consumed and what was written), the same
registry lookups and the same argument bytes passed to callables. -/
def Outcome.SameObservations (getFunction : Nat → Option Function) (o o2 : Outcome) : Prop :=
  o.status = o2.status ∧ o.serial = o2.serial ∧ o.lookups = o2.lookups ∧
    o.calls.map (callBytes getFunction) = o2.calls.map (callBytes getFunction)

/-- Two driver states whose arrays have their declared sizes and whose buffers
hold the same first `dataMaxSize` bytes. -/
def DriverState.SameBuffer (a b : DriverState) : Prop :=
  a.data.length = dataRealSize ∧ b.data.length = dataRealSize ∧
    a.argumentsData.length = argumentsDataSize ∧ b.argumentsData.length = argumentsDataSize ∧
    ∀ j, j < dataMaxSize → a.data.getD j 0 = b.data.getD j 0

/-- Two such states that also hold the same header bytes. -/
def DriverState.SameHeader (a b : DriverState) : Prop :=
  a.SameBuffer b ∧ a.commandByte = b.commandByte ∧ a.lengthByte = b.lengthByte

/-- Two such states that also hold the same frame: the same first
`lengthByte + 4` buffer bytes and the same footer bytes. -/
def DriverState.SameFrame (a b : DriverState) : Prop :=
  a.SameHeader b ∧ (∀ j, j < a.lengthByte + 4 → a.data.getD j 0 = b.data.getD j 0) ∧
    a.fletcherByte1 = b.fletcherByte1 ∧ a.fletcherByte2 = b.fletcherByte2

/-- Two phases that end alike: both stop with outcomes that cannot be told
apart, or both proceed with the same transport and related states. -/
def Phase.Alike (getFunction : Nat → Option Function)
    (R : DriverState → DriverState → Prop) : Phase → Phase → Prop
  | .abort o, .abort o2 => o.SameObservations getFunction o2
  | .proceed a s, .proceed b s2 => s = s2 ∧ R a b
  | _, _ => False

/-- A driver state left by another earlier cycle: other buffer bytes, other
header and checksum fields, other argument pointers. -/
def exampleStateAfter : DriverState :=
  { data := List.replicate 132 0xee
    commandByte := 3
    lengthByte := 2
    syncByte := 0xfc
    fletcherByte1 := 0x28
    fletcherByte2 := 0x8c
    fletcher16 := 35915
    f0 := 75
    f1 := 140
    c0 := 0x28
    c1 := 0x8c
    argumentsData := List.replicate 15 77 }

/-- A callable with three arguments, of widths 1, 2 and 8, that returns nothing. -/
def exampleThree : Function :=
  { getReturnType := .VOIDT
    getArgumentTypes := [.BYTET, .UINTT, .LONG]
    execute := fun _ _ => 0 }

/-- A registry whose only command, `6`, takes three arguments. -/
def exampleThreeRegistry : Nat → Option Function
  | 6 => some exampleThree
  | _ => none

/-- The driver state when a phase ends. -/
def Phase.st (p : Phase) : DriverState :=
  match p with
  | .abort o => o.st
  | .proceed st _ => st

/-- The local `buf` as the cycle of command 3 of `exampleRegistry` leaves it
when it answers `0x1336`: the switch has stored the two bytes of the answer in
`buf[0]` and `buf[1]`. -/
def exampleBufAfter : StackBuf :=
  (marshal FunctionType.UINTT 0x1336 exampleBuf ⟨[], []⟩).1

/-! # Lemmas -/

set_option maxRecDepth 100000

/-- A byte value read from the line is stored modulo 256. -/
theorem toByte_natCast (b : Nat) : toByte (b : Int) = b % 256 := by
  unfold toByte
  omega

/-- The reset loop keeps the size of the buffer. -/
theorem length_resetData (data : List Nat) : (resetData data).length = data.length := by
  unfold resetData
  generalize List.range 128 = r
  induction r generalizing data with
  | nil => rfl
  | cons i r ih => simp [List.foldl_cons, ih]

/-- Reading from a non-empty receive queue takes its first byte. -/
theorem read_cons (b : Nat) (r tx : List Nat) :
    Serial.read ⟨b :: r, tx⟩ = ((b : Int), ⟨r, tx⟩) := rfl

/-- After a store at index `i`, the first `i + 1` entries are the old first `i` entries and the stored value. -/
theorem take_succ_set (data : List Nat) (i b : Nat) (h : i < data.length) :
    (data.set i b).take (i + 1) = data.take i ++ [b] := by
  induction data generalizing i with
  | nil => simp at h
  | cons x xs ih =>
    cases i with
    | zero => simp
    | succ j =>
      simp only [List.length_cons, Nat.add_lt_add_iff_right] at h
      simp [ih j h]

/-- The transfer loop copies the bytes `body` into the buffer from index `i` on, when they fit. -/
theorem readPayload_append (body : List Nat) (hb : ∀ b ∈ body, b < 256) :
    ∀ (i : Nat) (data rest tx : List Nat), data.length = dataRealSize →
      i + body.length ≤ dataRealSize →
      readPayload body.length i data ⟨body ++ rest, tx⟩ =
        (true, data.take i ++ body ++ data.drop (i + body.length), ⟨rest, tx⟩) := by
  induction body with
  | nil =>
    intro i data rest tx _ _
    simp [readPayload]
  | cons b bs ih =>
    intro i data rest tx hd hi
    have hb0 : b < 256 := hb b (by simp)
    have hbs : ∀ x ∈ bs, x < 256 := fun x hx => hb x (by simp [hx])
    have hi1 : i < dataRealSize := by simp at hi; omega
    have hil : i < data.length := by omega
    simp only [List.length_cons, readPayload, hi1, if_true, List.cons_append, read_cons,
      toByte_natCast, Nat.mod_eq_of_lt hb0]
    rw [ih hbs (i + 1) (data.set i b) rest tx (by simp [hd]) (by simp at hi; omega)]
    rw [take_succ_set data i b hil, List.drop_set_of_lt b data (by omega : i < i + 1 + bs.length)]
    simp [Nat.add_assoc, Nat.add_comm 1]

/-- The byte value of `0xff`. -/
theorem toByte_ff : toByte 255 = 255 := by decide

/-- The byte value of `0xfe`. -/
theorem toByte_fe : toByte 254 = 254 := by decide

/-- The byte value of `0xfd`. -/
theorem toByte_fd : toByte 253 = 253 := by decide

/-- The byte value of `0xfc`. -/
theorem toByte_fc : toByte 252 = 252 := by decide

/-- On the sync pattern the synchronizer consumes four bytes and writes the acknowledgement. -/
theorem synchronize_sync (st : DriverState) (rx tx : List Nat) :
    synchronize st ⟨0xff :: 0xfe :: 0xfd :: 0xfc :: rx, tx⟩ =
      .proceed { st with syncByte := 0xfc } ⟨rx, tx ++ [0xfc, 0xfd, 0xfe, 0xff]⟩ := by
  have h4 : ¬ (rx.length + 1 + 1 + 1 + 1 < 4) := by omega
  simp [synchronize, Serial.available, SYNC_REQUEST_LENGTH, read_cons, Serial.write,
    toByte_ff, toByte_fe, toByte_fd, toByte_fc, h4]

/-- On a header `FB <cmd> <len>` the header phase stores both bytes and writes the echo. -/
theorem readHeader_header (st : DriverState) (cmd len : Nat) (rx tx : List Nat)
    (hcmd : cmd < 256) (hlen : len < 256) :
    readHeader st ⟨0xfb :: cmd :: len :: rx, tx⟩ =
      .proceed { st with commandByte := cmd, lengthByte := len }
        ⟨rx, tx ++ [len, cmd, 0xfb]⟩ := by
  have h3 : ¬ (rx.length + 1 + 1 + 1 < 3) := by omega
  simp [readHeader, expectNumberOfBytesToArrive, Serial.available, CMD_HANDSHAKE_LENGTH,
    read_cons, toByte_natCast, Serial.write, START_OF_REQUEST_MARKER,
    Nat.mod_eq_of_lt hcmd, Nat.mod_eq_of_lt hlen, h3]

/-- On the terminator `FA` the terminator phase consumes it and proceeds. -/
theorem readTerminator_terminator (st : DriverState) (rx tx : List Nat) :
    readTerminator st ⟨0xfa :: rx, tx⟩ = .proceed st ⟨rx, tx⟩ := by
  simp [readTerminator, expectNumberOfBytesToArrive, Serial.available, read_cons,
    ALL_BYTES_WRITTEN]

/-- With `lengthByte + 4` bytes present that fit the buffer, the frame phase stores them and copies the footer out. -/
theorem readFrame_body (st : DriverState) (body rx tx : List Nat)
    (hst : st.data.length = dataRealSize) (hlen : st.lengthByte + 4 ≤ dataRealSize)
    (hbody : body.length = st.lengthByte + 4) (hb : ∀ b ∈ body, b < 256) :
    readFrame st ⟨body ++ rx, tx⟩ =
      .proceed { st with
          data := body ++ st.data.drop body.length
          fletcherByte1 := body.getD (st.lengthByte + 2) 0
          fletcherByte2 := body.getD (st.lengthByte + 3) 0 } ⟨rx, tx⟩ := by
  have hrd := readPayload_append body hb 0 st.data rx tx hst (by omega)
  have hmod : (st.lengthByte + 4) % 256 = st.lengthByte + 4 :=
    Nat.mod_eq_of_lt (by unfold dataRealSize at hlen; omega)
  rw [hbody] at hrd
  have h2 : (body ++ List.drop (st.lengthByte + 4) st.data).getD (st.lengthByte + 2) 0 =
      body.getD (st.lengthByte + 2) 0 := by
    simp only [List.getD_eq_getElem?_getD]
    rw [List.getElem?_append_left (by omega)]
  have h3 : (body ++ List.drop (st.lengthByte + 4) st.data).getD (st.lengthByte + 3) 0 =
      body.getD (st.lengthByte + 3) 0 := by
    simp only [List.getD_eq_getElem?_getD]
    rw [List.getElem?_append_left (by omega)]
  simp only [readFrame, expectNumberOfBytesToArrive, Serial.available, hmod,
    List.length_append, hbody]
  have hav : ¬ (st.lengthByte + 4 + rx.length < st.lengthByte + 4) := by omega
  simp only [hav, if_false, hrd, List.take_zero, List.nil_append, Nat.zero_add, h2, h3]
  simp

/-- The frame reader on a complete request: sync, header, `len + 4` frame bytes, terminator. -/
theorem receive_frame (st : DriverState) (tx0 rest body : List Nat) (cmd len : Nat)
    (hst : st.data.length = dataRealSize) (hcmd : cmd < 256)
    (hlen : len + 4 ≤ dataRealSize) (hbody : body.length = len + 4)
    (hb : ∀ b ∈ body, b < 256) :
    receive st ⟨syncPattern ++ [0xfb, cmd, len] ++ body ++ [0xfa] ++ rest, tx0⟩ =
      .proceed (receivedState st cmd len body) ⟨rest, tx0 ++ ackAndEcho cmd len⟩ := by
  have hlen256 : len < 256 := by unfold dataRealSize at hlen; omega
  simp only [receive, syncPattern, List.cons_append, List.nil_append, List.append_assoc,
    synchronize_sync, Phase.andThen, readHeader_header _ cmd len _ _ hcmd hlen256]
  rw [readFrame_body _ body _ _ (by simp [length_resetData, hst]) hlen hbody hb]
  simp [readTerminator_terminator, receivedState, ackAndEcho]

/-- The loop of `Fletcher16` over a segment of the buffer is the left fold of `Fletcher16.step` over that segment. -/
theorem go_append (bytes : List Nat) :
    ∀ (pre tail : List Nat) (sums : Nat × Nat),
      Fletcher16.go (pre ++ bytes ++ tail) bytes.length pre.length sums =
        bytes.foldl Fletcher16.step sums := by
  induction bytes with
  | nil =>
    intro pre tail sums
    simp [Fletcher16.go]
  | cons x xs ih =>
    intro pre tail sums
    have hget : (pre ++ x :: xs ++ tail).getD pre.length 0 = x := by
      rw [List.append_assoc, List.getD_eq_getElem?_getD,
        List.getElem?_append_right (Nat.le_refl _)]
      simp
    have hre : pre ++ x :: xs ++ tail = (pre ++ [x]) ++ xs ++ tail := by simp
    have hlen : pre.length + 1 = (pre ++ [x]).length := by simp
    simp only [List.length_cons, Fletcher16.go, List.foldl_cons, hget]
    rw [hre, hlen, ih]

/-- The function `Fletcher16` reads only the first `count` bytes. -/
theorem Fletcher16_prefix (bytes tail : List Nat) :
    Fletcher16 (bytes ++ tail) bytes.length = Fletcher16 bytes bytes.length := by
  have h1 := go_append bytes [] tail (0, 0)
  have h2 := go_append bytes [] [] (0, 0)
  simp only [List.nil_append, List.length_nil, List.append_nil] at h1 h2
  simp only [Fletcher16, h1, h2]

/-- Masking with `0xff` is the remainder modulo 256. -/
theorem and_ff (x : Nat) : x &&& 0xff = x % 256 :=
  Nat.and_pow_two_sub_one_eq_mod x 8

/-- Shifting right by 8 is the quotient by 256. -/
theorem shiftRight_8 (x : Nat) : x >>> 8 = x / 256 :=
  Nat.shiftRight_eq_div_pow x 8

/-- Both running sums stay below 255. -/
theorem foldl_step_bounds (bytes : List Nat) :
    ∀ sums : Nat × Nat, sums.1 < 255 → sums.2 < 255 →
      (bytes.foldl Fletcher16.step sums).1 < 255 ∧ (bytes.foldl Fletcher16.step sums).2 < 255 := by
  induction bytes with
  | nil => intro sums h1 h2; exact ⟨h1, h2⟩
  | cons x xs ih =>
    intro sums _ _
    simp only [List.foldl_cons]
    apply ih
    · simp only [Fletcher16.step]; omega
    · simp only [Fletcher16.step]; omega

/-- The first running sum is the sum of the bytes modulo 255. -/
theorem foldl_step_sum1 (bytes : List Nat) (hb : ∀ b ∈ bytes, b < 256) :
    ∀ sums : Nat × Nat, sums.1 < 255 →
      (bytes.foldl Fletcher16.step sums).1 = (sums.1 + bytes.sum) % 255 := by
  induction bytes with
  | nil => intro sums h1; simp; omega
  | cons x xs ih =>
    intro sums h1
    have hx : x < 256 := hb x (by simp)
    simp only [List.foldl_cons, List.sum_cons]
    rw [ih (fun b hb1 => hb b (by simp [hb1])) _ (by simp only [Fletcher16.step]; omega)]
    simp only [Fletcher16.step]
    omega

/-- The low byte of `Fletcher16` is the sum of the bytes modulo 255. -/
theorem Fletcher16_low (bytes : List Nat) (hb : ∀ b ∈ bytes, b < 256) :
    Fletcher16 bytes bytes.length % 256 = bytes.sum % 255 := by
  have h := go_append bytes [] [] (0, 0)
  simp only [List.nil_append, List.length_nil, List.append_nil] at h
  have hbd := foldl_step_bounds bytes (0, 0) (by decide) (by decide)
  have hs := foldl_step_sum1 bytes hb (0, 0) (by decide)
  simp only [Fletcher16, h]
  rw [Nat.shiftLeft_eq, Nat.mul_comm, ← Nat.mul_add_lt_is_or (by omega)]
  simp only [Nat.zero_add] at hs
  omega

/-- Both footer bytes are byte values. -/
theorem frameFooter_lt (cmd len : Nat) (payload : List Nat) :
    (frameFooter cmd len payload).1 < 256 ∧ (frameFooter cmd len payload).2 < 256 := by
  simp only [frameFooter]
  omega

/-- The fields the sanity check compares, for a frame `<cmd> <len> <payload> <x0> <x1>`. -/
theorem checkedState_fields (st : DriverState) (cmd len : Nat) (payload : List Nat)
    (x0 x1 : Nat) (hpay : payload.length = len) :
    let stc := checkedState st cmd len (cmd :: len :: payload ++ [x0, x1])
    stc.c0 = (frameFooter cmd len payload).1 ∧ stc.c1 = (frameFooter cmd len payload).2 ∧
      stc.fletcherByte1 = x0 ∧ stc.fletcherByte2 = x1 ∧ stc.commandByte = cmd ∧
      stc.lengthByte = len ∧ stc.data.getD 0 0 = cmd ∧ stc.data.getD 1 0 = len := by
  have hF : Fletcher16
      (cmd :: len :: payload ++ [x0, x1] ++
        List.drop (cmd :: len :: payload ++ [x0, x1]).length (resetData st.data)) (len + 2) =
      Fletcher16 (cmd :: len :: payload) (cmd :: len :: payload).length := by
    have h := Fletcher16_prefix (cmd :: len :: payload)
      ([x0, x1] ++ List.drop (cmd :: len :: payload ++ [x0, x1]).length (resetData st.data))
    simp only [List.length_cons, hpay] at h
    simp only [List.length_cons, hpay, ← h]
    simp
  have hg2 : (cmd :: len :: payload ++ [x0, x1]).getD (len + 2) 0 = x0 := by
    have : (cmd :: len :: payload ++ [x0, x1]) = (cmd :: len :: payload) ++ [x0, x1] := by simp
    rw [this, List.getD_eq_getElem?_getD, List.getElem?_append_right (by simp [hpay])]
    simp [hpay]
  have hg3 : (cmd :: len :: payload ++ [x0, x1]).getD (len + 3) 0 = x1 := by
    have : (cmd :: len :: payload ++ [x0, x1]) = (cmd :: len :: payload) ++ [x0, x1] := by simp
    rw [this, List.getD_eq_getElem?_getD, List.getElem?_append_right (by simp [hpay])]
    simp [hpay]
  simp only [checkedState, computeChecks, receivedState, hF, hg2, hg3, and_ff, shiftRight_8,
    frameFooter]
  refine ⟨?_, ?_, ?_⟩
  · omega
  · omega
  · simp

/-- For such a frame the sanity check fails exactly when a footer byte differs from the computed one. -/
theorem sanityCheckFails_iff (st : DriverState) (cmd len : Nat) (payload : List Nat)
    (x0 x1 : Nat) (hpay : payload.length = len) :
    sanityCheckFails (checkedState st cmd len (cmd :: len :: payload ++ [x0, x1])) ↔
      ((frameFooter cmd len payload).1 ≠ x0 ∨ (frameFooter cmd len payload).2 ≠ x1) := by
  obtain ⟨h1, h2, h3, h4, h5, h6, h7, h8⟩ := checkedState_fields st cmd len payload x0 x1 hpay
  simp only [sanityCheckFails, h1, h2, h3, h4, h5, h6, h7, h8]
  simp

/-- The cycle on a complete request with declared length at most 128: error signal or dispatch, as the sanity check decides. -/
theorem loop_frame (getFunction : Nat → Option Function) (buf : StackBuf)
    (st : DriverState) (tx0 rest : List Nat) (cmd len : Nat) (payload : List Nat)
    (x0 x1 : Nat) (hst : st.data.length = dataRealSize) (hcmd : cmd < 256)
    (hlen : len ≤ 128) (hpay : payload.length = len) (hb : ∀ b ∈ payload, b < 256)
    (hx0 : x0 < 256) (hx1 : x1 < 256) :
    loop getFunction buf st ⟨requestBytes cmd len payload x0 x1 ++ rest, tx0⟩ =
      if sanityCheckFails (checkedState st cmd len (cmd :: len :: payload ++ [x0, x1])) then
        ⟨.returned, checkedState st cmd len (cmd :: len :: payload ++ [x0, x1]),
          WriteError ⟨rest, tx0 ++ ackAndEcho cmd len⟩, [], []⟩
      else
        dispatch getFunction buf (checkedState st cmd len (cmd :: len :: payload ++ [x0, x1]))
          ⟨rest, tx0 ++ ackAndEcho cmd len⟩ := by
  have hbody : ∀ b ∈ cmd :: len :: payload ++ [x0, x1], b < 256 := by
    intro b hmem
    simp only [List.cons_append, List.mem_cons, List.mem_append, List.mem_singleton,
      List.mem_nil_iff, or_false] at hmem
    rcases hmem with h | h | h | h | h
    · omega
    · omega
    · exact hb b h
    · omega
    · omega
  have hrecv := receive_frame st tx0 rest (cmd :: len :: payload ++ [x0, x1]) cmd len hst hcmd
    (by unfold dataRealSize; omega) (by simp [hpay]) hbody
  have hin : requestBytes cmd len payload x0 x1 ++ rest =
      syncPattern ++ [0xfb, cmd, len] ++ (cmd :: len :: payload ++ [x0, x1]) ++ [0xfa] ++ rest := by
    simp [requestBytes]
  simp only [loop, hin, hrecv, checkedState]

/-- Flipping one bit of a byte changes its remainder modulo 255 and gives a byte again. -/
theorem flip_bit_mod : ∀ b : Fin 256, ∀ k : Fin 8,
    (b.val ^^^ 2 ^ k.val) % 255 ≠ b.val % 255 ∧ (b.val ^^^ 2 ^ k.val) < 256 := by
  decide

/-- Flipping one bit of one payload byte changes the footer. -/
theorem frameFooter_flip (cmd len : Nat) (pre post : List Nat) (b k : Nat)
    (hcmd : cmd < 256) (hlen : len < 256) (hpre : ∀ x ∈ pre, x < 256) (hb : b < 256)
    (hpost : ∀ x ∈ post, x < 256) (hk : k < 8) :
    (frameFooter cmd len (pre ++ (b ^^^ 2 ^ k) :: post)).1 ≠
        (frameFooter cmd len (pre ++ b :: post)).1 ∨
      (frameFooter cmd len (pre ++ (b ^^^ 2 ^ k) :: post)).2 ≠
        (frameFooter cmd len (pre ++ b :: post)).2 := by
  obtain ⟨hne, hlt⟩ := flip_bit_mod ⟨b, hb⟩ ⟨k, hk⟩
  simp only at hne hlt
  have hall : ∀ c, c < 256 → ∀ x ∈ cmd :: len :: (pre ++ c :: post), x < 256 := by
    intro c hc x hx
    simp only [List.mem_cons, List.mem_append] at hx
    rcases hx with h | h | h | h | h
    · omega
    · omega
    · exact hpre x h
    · omega
    · exact hpost x h
  have h1 := Fletcher16_low (cmd :: len :: (pre ++ b :: post)) (hall b hb)
  have h2 := Fletcher16_low (cmd :: len :: (pre ++ (b ^^^ 2 ^ k) :: post)) (hall _ hlt)
  simp only [List.sum_cons, List.sum_append] at h1 h2
  simp only [frameFooter, h1, h2]
  omega

/-- The conversion to `byte` gives a value below 256. -/
theorem toByte_lt (x : Int) : toByte x < 256 := by
  unfold toByte
  omega

/-- Reading writes nothing. -/
theorem read_tx (s : Serial) : s.read.2.tx = s.tx := by
  unfold Serial.read
  split <;> rfl

/-- A wait that succeeds leaves the transport as it was. -/
theorem expect_true (n : Nat) (s : Serial) (h : ¬ (expectNumberOfBytesToArrive n s).1 = false) :
    (expectNumberOfBytesToArrive n s).2 = s := by
  simp only [expectNumberOfBytesToArrive] at h ⊢
  split_ifs at h ⊢ with hlt
  · simp at h
  · rfl

/-- The transfer loop writes nothing. -/
theorem readPayload_tx : ∀ (n i : Nat) (data : List Nat) (s : Serial),
    (readPayload n i data s).2.2.tx = s.tx := by
  intro n
  induction n with
  | zero => intro i data s; rfl
  | succ n ih =>
    intro i data s
    simp only [readPayload]
    split
    · rw [ih, read_tx]
    · rfl

/-- When the synchronizer proceeds it has written the acknowledgement and kept the buffer. -/
theorem synchronize_proceed (st st1 : DriverState) (s s1 : Serial)
    (h : synchronize st s = .proceed st1 s1) :
    s1.tx = s.tx ++ [0xfc, 0xfd, 0xfe, 0xff] ∧ st1.data = st.data := by
  simp only [synchronize] at h
  split_ifs at h
  simp only [Phase.proceed.injEq] at h
  obtain ⟨h1, h2⟩ := h
  subst h1 h2
  simp [Serial.write, read_tx]

/-- When the header phase proceeds it has written the echo of the stored length and command bytes. -/
theorem readHeader_proceed (st st1 : DriverState) (s s1 : Serial)
    (h : readHeader st s = .proceed st1 s1) :
    s1.tx = s.tx ++ [st1.lengthByte, st1.commandByte, 0xfb] := by
  simp only [readHeader] at h
  split_ifs at h with he hr
  simp only [Phase.proceed.injEq] at h
  obtain ⟨h1, h2⟩ := h
  subst h1 h2
  simp [Serial.write, read_tx, expect_true _ _ he, Nat.mod_eq_of_lt (toByte_lt _),
    START_OF_REQUEST_MARKER]

/-- When the frame phase proceeds it has written nothing and kept the header bytes. -/
theorem readFrame_proceed (st st1 : DriverState) (s s1 : Serial)
    (h : readFrame st s = .proceed st1 s1) :
    s1.tx = s.tx ∧ st1.commandByte = st.commandByte ∧ st1.lengthByte = st.lengthByte := by
  simp only [readFrame] at h
  split_ifs at h with he hp
  simp only [Phase.proceed.injEq] at h
  obtain ⟨h1, h2⟩ := h
  subst h1 h2
  simp [readPayload_tx, expect_true _ _ he]

/-- When the terminator phase proceeds it has written nothing and kept the state. -/
theorem readTerminator_proceed (st st1 : DriverState) (s s1 : Serial)
    (h : readTerminator st s = .proceed st1 s1) :
    s1.tx = s.tx ∧ st1 = st := by
  simp only [readTerminator] at h
  split_ifs at h with he hr
  simp only [Phase.proceed.injEq] at h
  obtain ⟨h1, h2⟩ := h
  subst h1 h2
  simp [read_tx, expect_true _ _ he]

/-- A sequence of two phases proceeds only when both do. -/
theorem andThen_proceed (p : Phase) (next : DriverState → Serial → Phase)
    (st1 : DriverState) (s1 : Serial) (h : p.andThen next = .proceed st1 s1) :
    ∃ st0 s0, p = .proceed st0 s0 ∧ next st0 s0 = .proceed st1 s1 := by
  cases p with
  | abort o => simp [Phase.andThen] at h
  | proceed st0 s0 => exact ⟨st0, s0, rfl, h⟩

/-- When the frame reader proceeds, it has written the acknowledgement and the header echo and nothing else. -/
theorem receive_proceed (st st1 : DriverState) (s s1 : Serial)
    (h : receive st s = .proceed st1 s1) :
    s1.tx = s.tx ++ ackAndEcho st1.commandByte st1.lengthByte := by
  unfold receive at h
  obtain ⟨st4, s4, h3, h4⟩ := andThen_proceed _ _ _ _ h
  obtain ⟨st3, s3, h2, h3⟩ := andThen_proceed _ _ _ _ h3
  obtain ⟨st2, s2, h1, h2⟩ := andThen_proceed _ _ _ _ h2
  obtain ⟨e1, -⟩ := synchronize_proceed _ _ _ _ h1
  have e2 := readHeader_proceed _ _ _ _ h2
  obtain ⟨e3, e3c, e3l⟩ := readFrame_proceed _ _ _ _ h3
  obtain ⟨e4, e4s⟩ := readTerminator_proceed _ _ _ _ h4
  subst e4s
  rw [e4, e3, e2, e1, e3c, e3l]
  simp [ackAndEcho]

/-- When the frame reader proceeds and the sanity check passes, the cycle is the dispatch. -/
theorem loop_accepted (getFunction : Nat → Option Function) (buf : StackBuf)
    (st st1 : DriverState) (s s1 : Serial) (hrecv : receive st s = .proceed st1 s1)
    (hok : ¬ sanityCheckFails (computeChecks st1)) :
    loop getFunction buf st s = dispatch getFunction buf (computeChecks st1) s1 := by
  simp only [loop, hrecv, if_neg hok]

/-- The byte stored in `buf[0]` for a 16-bit load of `v`. -/
theorem low_byte_16 (v : Nat) : (v % 65536 &&& 255) % 256 = v % 256 := by
  rw [and_ff]
  omega

/-- The byte stored in `buf[1]` for a 16-bit load of `v`. -/
theorem high_byte_16 (v : Nat) : ((v % 65536) >>> 8 &&& 255) % 256 = v / 256 % 256 := by
  rw [and_ff, shiftRight_8]
  omega

/-- The answer for a one-byte return type: marker, width 1, the result byte, and one byte of `buf`. -/
theorem loop_one_byte (getFunction : Nat → Option Function) (buf : StackBuf)
    (st st1 : DriverState) (s s1 : Serial) (function : Function) (argumentsData : List Nat)
    (hrecv : receive st s = .proceed st1 s1)
    (hok : ¬ sanityCheckFails (computeChecks st1))
    (hcmd : st1.commandByte ≠ CMD_HANDSHAKE_INITIATE)
    (hfun : getFunction st1.commandByte = some function)
    (hret : function.getReturnType = .BOOLEANT ∨ function.getReturnType = .CHART ∨
      function.getReturnType = .UCHART ∨ function.getReturnType = .BYTET)
    (hargs : sliceArguments function.getArgumentTypes 0 2 st1.argumentsData =
      some argumentsData) :
    (loop getFunction buf st s).status = .returned ∧
      (loop getFunction buf st s).serial.tx =
        s.tx ++ ackAndEcho st1.commandByte st1.lengthByte ++
          [0xf9, 1, function.execute st1.data argumentsData % 256, buf.b0 % 256] := by
  have htx := receive_proceed st st1 s s1 hrecv
  have hcmd1 : ¬ (computeChecks st1).commandByte = CMD_HANDSHAKE_INITIATE := hcmd
  have hfun1 : getFunction (computeChecks st1).commandByte = some function := hfun
  have hargs1 : sliceArguments function.getArgumentTypes 0 2 (computeChecks st1).argumentsData =
      some argumentsData := hargs
  rw [loop_accepted getFunction buf st st1 s s1 hrecv hok]
  simp only [dispatch, if_neg hcmd1, hfun1, hargs1]
  rcases hret with h | h | h | h <;>
    simp [h, getSize, sizeofBoolean, sizeofChar, sizeofByte, marshal, writeBuffer,
      StackBuf.toList, Serial.write, START_OF_RESPONSE_MARKER, htx, computeChecks]

/-- The synchronizer on four bytes: it stops at the first byte that differs from the pattern. -/
theorem synchronize_four (st : DriverState) (b0 b1 b2 b3 : Nat) (rx tx : List Nat)
    (h0 : b0 < 256) (h1 : b1 < 256) (h2 : b2 < 256) (h3 : b3 < 256) :
    synchronize st ⟨b0 :: b1 :: b2 :: b3 :: rx, tx⟩ =
      if b0 ≠ 0xff then
        .abort ⟨.returned, { st with syncByte := b0 }, ⟨b1 :: b2 :: b3 :: rx, tx⟩, [], []⟩
      else if b1 ≠ 0xfe then
        .abort ⟨.returned, { st with syncByte := b1 }, ⟨b2 :: b3 :: rx, tx⟩, [], []⟩
      else if b2 ≠ 0xfd then
        .abort ⟨.returned, { st with syncByte := b2 }, ⟨b3 :: rx, tx⟩, [], []⟩
      else if b3 ≠ 0xfc then
        .abort ⟨.returned, { st with syncByte := b3 }, ⟨rx, tx⟩, [], []⟩
      else .proceed { st with syncByte := b3 } ⟨rx, tx ++ [0xfc, 0xfd, 0xfe, 0xff]⟩ := by
  have h4 : ¬ (rx.length + 1 + 1 + 1 + 1 < 4) := by omega
  simp only [synchronize, Serial.available, SYNC_REQUEST_LENGTH, List.length_cons, h4, if_false,
    read_cons, toByte_natCast, Nat.mod_eq_of_lt h0, Nat.mod_eq_of_lt h1, Nat.mod_eq_of_lt h2,
    Nat.mod_eq_of_lt h3, Serial.write]
  split_ifs <;> simp

/-- When the frame reader stops, its outcome is the outcome of the cycle. -/
theorem loop_of_abort (getFunction : Nat → Option Function) (buf : StackBuf)
    (st : DriverState) (s : Serial) (o : Outcome) (h : receive st s = .abort o) :
    loop getFunction buf st s = o := by
  simp only [loop, h]

/-- When the synchronizer stops, the frame reader stops with the same outcome.
-/
theorem receive_of_sync_abort (st : DriverState) (s : Serial) (o : Outcome)
    (h : synchronize { st with data := resetData st.data } s = .abort o) :
    receive st s = .abort o := by
  simp only [receive, h, Phase.andThen]

/-- With three bytes present of which the first is not `FB`, the header phase
consumes that byte and stops, writing nothing. -/
theorem readHeader_mismatch (st : DriverState) (b c d : Nat) (rx tx : List Nat)
    (hb : b ≠ 0xfb) :
    readHeader st ⟨b :: c :: d :: rx, tx⟩ =
      .abort ⟨.returned, st, ⟨c :: d :: rx, tx⟩, [], []⟩ := by
  have h3 : ¬ (rx.length + 1 + 1 + 1 < 3) := by omega
  have hb1 : ¬ ((b : Int) = 251) := by
    intro h
    apply hb
    exact_mod_cast h
  simp [readHeader, expectNumberOfBytesToArrive, Serial.available, CMD_HANDSHAKE_LENGTH,
    read_cons, START_OF_REQUEST_MARKER, h3, hb1]

/-- Writing a byte extends the output. -/
theorem write_extends (s : Serial) (b : Nat) : s.tx <+: (s.write b).tx := by
  simp [Serial.write]

/-- The error signal appends three error markers to the output. -/
theorem WriteError_tx (s : Serial) :
    (WriteError s).tx = s.tx ++ [0xef, 0xef, 0xef] := by
  simp [WriteError, Serial.write, ERROR_MARKER]

/-- A wait extends the output, by the error signal or by nothing. -/
theorem expect_extends (n : Nat) (s : Serial) :
    s.tx <+: (expectNumberOfBytesToArrive n s).2.tx := by
  simp only [expectNumberOfBytesToArrive]
  split_ifs
  · simp [WriteError_tx]
  · exact List.prefix_rfl

/-- The frame phase extends the output. -/
theorem readFrame_extends (st : DriverState) (s : Serial) : s.tx <+: (readFrame st s).tx := by
  simp only [readFrame]
  split_ifs with he hp
  · exact expect_extends _ _
  · simp only [Phase.tx, readPayload_tx]
    exact expect_extends _ _
  · simp only [Phase.tx, readPayload_tx]
    exact expect_extends _ _

/-- The terminator phase extends the output. -/
theorem readTerminator_extends (st : DriverState) (s : Serial) :
    s.tx <+: (readTerminator st s).tx := by
  simp only [readTerminator]
  split_ifs with he hr
  · exact expect_extends _ _
  · simp only [Phase.tx, read_tx]
    exact expect_extends _ _
  · simp only [Phase.tx, read_tx]
    exact expect_extends _ _

/-- Sequencing keeps the output written so far when the second phase does. -/
theorem andThen_extends (t : List Nat) (p : Phase) (next : DriverState → Serial → Phase)
    (hp : t <+: p.tx) (hnext : ∀ st s, s.tx <+: (next st s).tx) :
    t <+: (p.andThen next).tx := by
  cases p with
  | abort o => exact hp
  | proceed st s => exact hp.trans (hnext st s)

/-- Sending a buffer extends the output. -/
theorem writeBuffer_extends (buf : List Nat) :
    ∀ (n i : Nat) (s : Serial), s.tx <+: (writeBuffer buf n i s).2.tx := by
  intro n
  induction n with
  | zero => intro i s; exact List.prefix_rfl
  | succ n ih =>
    intro i s
    simp only [writeBuffer]
    split
    · exact (write_extends s _).trans (ih _ _)
    · exact List.prefix_rfl

/-- The switch on the return type extends the output. -/
theorem marshal_extends (returnType : FunctionType) (result : Nat) (buf : StackBuf)
    (s : Serial) : s.tx <+: (marshal returnType result buf s).2.tx := by
  cases returnType <;> simp [marshal, Serial.write]

/-- The dispatch extends the output. -/
theorem dispatch_extends (getFunction : Nat → Option Function) (buf : StackBuf)
    (st : DriverState) (s : Serial) : s.tx <+: (dispatch getFunction buf st s).serial.tx := by
  simp only [dispatch]
  split_ifs with hc
  · simp [Serial.write]
  · split
    · exact List.prefix_rfl
    · split
      · exact List.prefix_rfl
      · split_ifs with hv
        · simp [Serial.write]
        · split
          · exact List.prefix_rfl
          · refine List.IsPrefix.trans ?_ (writeBuffer_extends _ _ _ _)
            refine List.IsPrefix.trans ?_ (marshal_extends _ _ _ _)
            simp [Serial.write]

/-- What the frame reader has written is the beginning of the output of the
cycle. -/
theorem loop_extends (getFunction : Nat → Option Function) (buf : StackBuf)
    (st : DriverState) (s : Serial) (t : List Nat) (h : t <+: (receive st s).tx) :
    t <+: (loop getFunction buf st s).serial.tx := by
  simp only [loop]
  cases hr : receive st s with
  | abort o =>
    rw [hr] at h
    exact h
  | proceed st1 s1 =>
    rw [hr] at h
    simp only
    split_ifs
    · simp only [WriteError_tx]
      exact h.trans (List.prefix_append _ _)
    · exact h.trans (dispatch_extends _ _ _ _)

/-- The timeout of the header phase: fewer than three bytes after the sync pattern. -/
theorem timeout_header (getFunction : Nat → Option Function) (buf : StackBuf)
    (st : DriverState) (few tx0 : List Nat) (hfew : few.length < 3) :
    loop getFunction buf st ⟨syncPattern ++ few, tx0⟩ =
      ⟨.returned, { st with data := resetData st.data, syncByte := 0xfc },
        ⟨few, tx0 ++ [0xfc, 0xfd, 0xfe, 0xff] ++ [0xef, 0xef, 0xef]⟩, [], []⟩ := by
  have hr : receive st ⟨syncPattern ++ few, tx0⟩ =
      .abort ⟨.returned, { st with data := resetData st.data, syncByte := 0xfc },
        ⟨few, tx0 ++ [0xfc, 0xfd, 0xfe, 0xff] ++ [0xef, 0xef, 0xef]⟩, [], []⟩ := by
    simp only [receive, syncPattern, List.cons_append, List.nil_append, synchronize_sync,
      Phase.andThen]
    simp [readHeader, expectNumberOfBytesToArrive, Serial.available, CMD_HANDSHAKE_LENGTH,
      hfew, WriteError, Serial.write, ERROR_MARKER]
  exact loop_of_abort _ _ _ _ _ hr

/-- The timeout of the frame phase, when the count `len + 4` fits in a byte. -/
theorem timeout_frame (getFunction : Nat → Option Function) (buf : StackBuf)
    (st : DriverState) (cmd len : Nat) (few tx0 : List Nat) (hcmd : cmd < 256)
    (hlen : len + 4 < 256) (hfew : few.length < len + 4) :
    loop getFunction buf st ⟨syncPattern ++ [0xfb, cmd, len] ++ few, tx0⟩ =
      ⟨.returned,
        { st with data := resetData st.data, syncByte := 0xfc, commandByte := cmd,
                  lengthByte := len },
        ⟨few, tx0 ++ ackAndEcho cmd len ++ [0xef, 0xef, 0xef]⟩, [], []⟩ := by
  have hr : receive st ⟨syncPattern ++ [0xfb, cmd, len] ++ few, tx0⟩ =
      .abort ⟨.returned,
        { st with data := resetData st.data, syncByte := 0xfc, commandByte := cmd,
                  lengthByte := len },
        ⟨few, tx0 ++ ackAndEcho cmd len ++ [0xef, 0xef, 0xef]⟩, [], []⟩ := by
    simp only [receive, syncPattern, List.cons_append, List.nil_append, synchronize_sync,
      Phase.andThen, readHeader_header _ cmd len _ _ hcmd (by omega)]
    simp [readFrame, expectNumberOfBytesToArrive, Serial.available, Nat.mod_eq_of_lt hlen,
      hfew, WriteError, Serial.write, ERROR_MARKER, ackAndEcho]
  exact loop_of_abort _ _ _ _ _ hr

/-- The frame reader up to the terminator phase, on sync, header and `len + 4` frame bytes. -/
theorem receive_to_terminator (st : DriverState) (tx0 rest body : List Nat) (cmd len : Nat)
    (hst : st.data.length = dataRealSize) (hcmd : cmd < 256)
    (hlen : len + 4 ≤ dataRealSize) (hbody : body.length = len + 4)
    (hb : ∀ b ∈ body, b < 256) :
    receive st ⟨syncPattern ++ [0xfb, cmd, len] ++ body ++ rest, tx0⟩ =
      readTerminator (receivedState st cmd len body) ⟨rest, tx0 ++ ackAndEcho cmd len⟩ := by
  have hlen256 : len < 256 := by unfold dataRealSize at hlen; omega
  simp only [receive, syncPattern, List.cons_append, List.nil_append, List.append_assoc,
    synchronize_sync, Phase.andThen, readHeader_header _ cmd len _ _ hcmd hlen256]
  rw [readFrame_body _ body _ _ (by simp [length_resetData, hst]) hlen hbody hb]
  simp [receivedState, ackAndEcho]

/-- The timeout of the terminator phase: a frame that fits the buffer and nothing after it. -/
theorem timeout_terminator (getFunction : Nat → Option Function) (buf : StackBuf)
    (st : DriverState) (cmd len : Nat) (body tx0 : List Nat)
    (hst : st.data.length = dataRealSize) (hcmd : cmd < 256)
    (hlen : len + 4 ≤ dataRealSize) (hbody : body.length = len + 4)
    (hb : ∀ b ∈ body, b < 256) :
    loop getFunction buf st ⟨syncPattern ++ [0xfb, cmd, len] ++ body ++ [], tx0⟩ =
      ⟨.returned, receivedState st cmd len body,
        ⟨[], tx0 ++ ackAndEcho cmd len ++ [0xef, 0xef, 0xef]⟩, [], []⟩ := by
  have hr : receive st ⟨syncPattern ++ [0xfb, cmd, len] ++ body ++ [], tx0⟩ =
      .abort ⟨.returned, receivedState st cmd len body,
        ⟨[], tx0 ++ ackAndEcho cmd len ++ [0xef, 0xef, 0xef]⟩, [], []⟩ := by
    rw [receive_to_terminator st tx0 [] body cmd len hst hcmd hlen hbody hb]
    simp [readTerminator, expectNumberOfBytesToArrive, Serial.available, WriteError,
      Serial.write, ERROR_MARKER]
  exact loop_of_abort _ _ _ _ _ hr

/-- The argument loop on at most fifteen non-void types succeeds; it stores the
running offset at each index it visits and leaves the other entries of the table
alone. -/
theorem sliceArguments_spec (types : List FunctionType) :
    ∀ (i pos : Nat) (table : List Nat), (∀ t ∈ types, t ≠ FunctionType.VOIDT) →
      i + types.length ≤ argumentsDataSize → table.length = argumentsDataSize →
      ∃ result, sliceArguments types i pos table = some result ∧
        result.length = argumentsDataSize ∧
        (∀ j, j < i → result.getD j 0 = table.getD j 0) ∧
        (∀ j, j < types.length →
          result.getD (i + j) 0 = pos + ((argumentWidths types).take j).sum) ∧
        (∀ j, i + types.length ≤ j → result.getD j 0 = table.getD j 0) := by
  induction types with
  | nil =>
    intro i pos table _ _ hl
    exact ⟨table, rfl, hl, fun _ _ => rfl, fun j hj => absurd hj (by simp), fun _ _ => rfl⟩
  | cons t ts ih =>
    intro i pos table hv hn hl
    have ht : t ≠ FunctionType.VOIDT := hv t (by simp)
    obtain ⟨w, hw⟩ : ∃ w, getSize t = some w := by
      cases t <;> first | exact absurd rfl ht | exact ⟨_, rfl⟩
    have hi : i < argumentsDataSize := by simp at hn; omega
    obtain ⟨result, hres, hlen, hlow, hmid, hhigh⟩ :=
      ih (i + 1) (pos + w) (table.set i pos) (fun x hx => hv x (by simp [hx]))
        (by simp at hn; omega) (by simp [hl])
    refine ⟨result, ?_, hlen, ?_, ?_, ?_⟩
    · simp only [sliceArguments, hi, if_true, hw, hres]
    · intro j hj
      rw [hlow j (by omega)]
      simp only [List.getD_eq_getElem?_getD]
      rw [List.getElem?_set_ne (by omega)]
    · intro j hj
      cases j with
      | zero =>
        rw [Nat.add_zero, hlow i (by omega)]
        simp only [List.getD_eq_getElem?_getD]
        rw [List.getElem?_set_self (by omega)]
        simp
      | succ j =>
        have := hmid j (by simp at hj; omega)
        rw [show i + (j + 1) = i + 1 + j by omega, this]
        simp [argumentWidths, hw, Nat.add_assoc]
    · intro j hj
      rw [hhigh j (by simp at hj ⊢; omega)]
      simp only [List.getD_eq_getElem?_getD]
      rw [List.getElem?_set_ne (by simp at hj; omega)]

/-- The synchronizer keeps the pointer table. -/
theorem synchronize_argumentsData (st st1 : DriverState) (s s1 : Serial)
    (h : synchronize st s = .proceed st1 s1) : st1.argumentsData = st.argumentsData := by
  simp only [synchronize] at h
  split_ifs at h
  simp only [Phase.proceed.injEq] at h
  obtain ⟨h1, -⟩ := h
  subst h1
  rfl

/-- The header phase keeps the pointer table. -/
theorem readHeader_argumentsData (st st1 : DriverState) (s s1 : Serial)
    (h : readHeader st s = .proceed st1 s1) : st1.argumentsData = st.argumentsData := by
  simp only [readHeader] at h
  split_ifs at h
  simp only [Phase.proceed.injEq] at h
  obtain ⟨h1, -⟩ := h
  subst h1
  rfl

/-- The frame phase keeps the pointer table. -/
theorem readFrame_argumentsData (st st1 : DriverState) (s s1 : Serial)
    (h : readFrame st s = .proceed st1 s1) : st1.argumentsData = st.argumentsData := by
  simp only [readFrame] at h
  split_ifs at h
  simp only [Phase.proceed.injEq] at h
  obtain ⟨h1, -⟩ := h
  subst h1
  rfl

/-- The frame reader keeps the pointer table. -/
theorem receive_argumentsData (st st1 : DriverState) (s s1 : Serial)
    (h : receive st s = .proceed st1 s1) : st1.argumentsData = st.argumentsData := by
  unfold receive at h
  obtain ⟨st4, s4, h3, h4⟩ := andThen_proceed _ _ _ _ h
  obtain ⟨st3, s3, h2, h3⟩ := andThen_proceed _ _ _ _ h3
  obtain ⟨st2, s2, h1, h2⟩ := andThen_proceed _ _ _ _ h2
  obtain ⟨-, e4⟩ := readTerminator_proceed _ _ _ _ h4
  rw [e4, readFrame_argumentsData _ _ _ _ h3, readHeader_argumentsData _ _ _ _ h2,
    synchronize_argumentsData _ _ _ _ h1]

/-- When the argument loop completes, the dispatch looks the command up once and
records one call. -/
theorem dispatch_calls (getFunction : Nat → Option Function) (buf : StackBuf)
    (st : DriverState) (s : Serial) (function : Function) (table : List Nat)
    (hcmd : st.commandByte ≠ CMD_HANDSHAKE_INITIATE)
    (hfun : getFunction st.commandByte = some function)
    (hargs : sliceArguments function.getArgumentTypes 0 2 st.argumentsData = some table) :
    (dispatch getFunction buf st s).calls = [⟨st.commandByte, st.data, table⟩] ∧
      (dispatch getFunction buf st s).lookups = [st.commandByte] := by
  simp only [dispatch, if_neg hcmd, hfun, hargs]
  cases hr : function.getReturnType <;> simp [getSize]

/-- The sum of the first `i + 1` entries is the sum of the first `i` plus the
entry at `i`. -/
theorem sum_take_succ (l : List Nat) (i : Nat) :
    (l.take (i + 1)).sum = (l.take i).sum + l.getD i 0 := by
  rw [List.take_succ, List.sum_append, List.getD_eq_getElem?_getD]
  cases l[i]? <;> simp

/-- The sum of a shorter prefix of natural numbers is at most the sum of a
longer one. -/
theorem sum_take_le (l : List Nat) (i j : Nat) (h : i ≤ j) :
    (l.take i).sum ≤ (l.take j).sum := by
  obtain ⟨d, rfl⟩ := Nat.exists_eq_add_of_le h
  rw [List.take_add, List.sum_append]
  omega

/-- Every entry read from a byte array, in or out of range, is below 256. -/
theorem getD_lt_of_bytes (data : List Nat) (hb : ∀ b ∈ data, b < 256) (i : Nat) :
    data.getD i 0 < 256 := by
  rw [List.getD_eq_getElem?_getD]
  cases h : data[i]? with
  | none => simp
  | some x => exact hb x (List.getElem?_mem h)

/-- The first running sum after one iteration, without the 16-bit reduction. -/
theorem step_fst (a b d : Nat) (ha : a < 255) (hd : d < 256) :
    (Fletcher16.step (a, b) d).1 = (a + d) % 255 := by
  simp only [Fletcher16.step]
  omega

/-- The second running sum after one iteration, without the 16-bit reduction. -/
theorem step_snd (a b d : Nat) (ha : a < 255) (hb : b < 255) (hd : d < 256) :
    (Fletcher16.step (a, b) d).2 = (b + (a + d) % 255) % 255 := by
  simp only [Fletcher16.step]
  omega

/-- The closed form of both running sums after `k` iterations from index `idx`.
-/
theorem go_closed (data : List Nat) (hb : ∀ b ∈ data, b < 256) :
    ∀ (k idx a b : Nat), a < 255 → b < 255 →
      (Fletcher16.go data k idx (a, b)).1 =
          (a + ((List.range k).map (fun i => data.getD (idx + i) 0)).sum) % 255 ∧
        (Fletcher16.go data k idx (a, b)).2 =
          (b + k * a + ((List.range k).map (fun i => (k - i) * data.getD (idx + i) 0)).sum)
            % 255 := by
  intro k
  induction k with
  | zero =>
    intro idx a b ha hb
    simp only [Fletcher16.go, List.range_zero, List.map_nil, List.sum_nil]
    constructor <;> omega
  | succ k ih =>
    intro idx a b ha hb1
    have hd := getD_lt_of_bytes data hb idx
    have hstep : Fletcher16.step (a, b) (data.getD idx 0) =
        ((a + data.getD idx 0) % 255, (b + (a + data.getD idx 0) % 255) % 255) := by
      rw [Prod.ext_iff]
      exact ⟨step_fst a b _ ha hd, step_snd a b _ ha hb1 hd⟩
    obtain ⟨h1, h2⟩ := ih (idx + 1) ((a + data.getD idx 0) % 255)
      ((b + (a + data.getD idx 0) % 255) % 255) (Nat.mod_lt _ (by decide))
      (Nat.mod_lt _ (by decide))
    have e1 : (List.map (fun i => data.getD (idx + i) 0) (List.range (k + 1))).sum =
        data.getD idx 0 + (List.map (fun i => data.getD (idx + 1 + i) 0) (List.range k)).sum := by
      rw [List.range_succ_eq_map, List.map_cons, List.sum_cons, List.map_map, Nat.add_zero]
      congr 3
      funext i
      show data.getD (idx + (i + 1)) 0 = data.getD (idx + 1 + i) 0
      rw [Nat.add_assoc, Nat.add_comm 1 i]
    have e2 : (List.map (fun i => (k + 1 - i) * data.getD (idx + i) 0)
          (List.range (k + 1))).sum =
        (k + 1) * data.getD idx 0 +
          (List.map (fun i => (k - i) * data.getD (idx + 1 + i) 0) (List.range k)).sum := by
      rw [List.range_succ_eq_map, List.map_cons, List.sum_cons, List.map_map, Nat.add_zero,
        Nat.sub_zero]
      congr 3
      funext i
      show (k + 1 - (i + 1)) * data.getD (idx + (i + 1)) 0 = (k - i) * data.getD (idx + 1 + i) 0
      rw [Nat.add_sub_add_right, Nat.add_assoc, Nat.add_comm 1 i]
    simp only [Fletcher16.go, hstep]
    rw [h1, h2, e1, e2]
    constructor
    · omega
    · have ha1 : (a + data.getD idx 0) % 255 ≡ a + data.getD idx 0 [MOD 255] :=
        Nat.mod_modEq _ _
      have hb2 : (b + (a + data.getD idx 0) % 255) % 255 ≡ b + (a + data.getD idx 0) [MOD 255] :=
        (Nat.mod_modEq _ _).trans (Nat.ModEq.add_left b ha1)
      have h := (hb2.add (ha1.mul_left k)).add_right
        (List.map (fun i => (k - i) * data.getD (idx + 1 + i) 0) (List.range k)).sum
      unfold Nat.ModEq at h
      rw [h]
      congr 1
      ring

/-- The transfer loop stores at the indices `i`, ..., `i + n - 1`. -/
theorem mem_readPayloadIndices (n : Nat) :
    ∀ (i j : Nat), j ∈ readPayloadIndices n i ↔ i ≤ j ∧ j < i + n := by
  induction n with
  | zero => intro i j; simp [readPayloadIndices]
  | succ n ih =>
    intro i j
    simp only [readPayloadIndices, List.mem_cons, ih]
    omega

/-- The checksum loop reads at the indices `idx`, ..., `idx + k - 1`. -/
theorem mem_Fletcher16_indices (k : Nat) :
    ∀ (idx j : Nat), j ∈ Fletcher16.indices k idx ↔ idx ≤ j ∧ j < idx + k := by
  induction k with
  | zero => intro idx j; simp [Fletcher16.indices]
  | succ k ih =>
    intro idx j
    simp only [Fletcher16.indices, List.mem_cons, ih]
    omega

/-- A store at one index leaves the other entries as they were. -/
theorem getD_set_ne (data : List Nat) (i j v : Nat) (h : i ≠ j) :
    (data.set i v).getD j 0 = data.getD j 0 := by
  simp only [List.getD_eq_getElem?_getD]
  rw [List.getElem?_set_ne h]

/-- A transfer that fits the buffer completes and changes only the indices it
stores at. -/
theorem readPayload_frame (n : Nat) :
    ∀ (i : Nat) (data : List Nat) (s : Serial), i + n ≤ dataRealSize →
      (readPayload n i data s).1 = true ∧
        ∀ j, (j < i ∨ i + n ≤ j) → (readPayload n i data s).2.1.getD j 0 = data.getD j 0 := by
  induction n with
  | zero =>
    intro i data s _
    exact ⟨rfl, fun _ _ => rfl⟩
  | succ n ih =>
    intro i data s h
    have hi : i < dataRealSize := by omega
    simp only [readPayload, hi, if_true]
    obtain ⟨h1, h2⟩ := ih (i + 1) (data.set i (toByte s.read.1)) s.read.2 (by omega)
    refine ⟨h1, ?_⟩
    intro j hj
    rw [h2 j (by omega), getD_set_ne _ _ _ _ (by omega)]

/-- The checksum loop gives the same sums on two buffers that agree at the
indices it reads. -/
theorem go_congr (data other : List Nat) (k : Nat) :
    ∀ (idx : Nat) (sums : Nat × Nat),
      (∀ j, idx ≤ j → j < idx + k → data.getD j 0 = other.getD j 0) →
      Fletcher16.go data k idx sums = Fletcher16.go other k idx sums := by
  induction k with
  | zero => intro idx sums _; rfl
  | succ k ih =>
    intro idx sums h
    simp only [Fletcher16.go]
    rw [h idx (Nat.le_refl _) (by omega)]
    exact ih (idx + 1) _ (fun j h1 h2 => h j (by omega) (by omega))

/-- The function `Fletcher16` gives the same value on two buffers that agree on
the first `n` bytes. -/
theorem Fletcher16_congr (data other : List Nat) (n : Nat)
    (h : ∀ j, j < n → data.getD j 0 = other.getD j 0) :
    Fletcher16 data n = Fletcher16 other n := by
  simp only [Fletcher16]
  rw [go_congr data other n 0 (0, 0) (fun j _ hj => h j (by omega))]

/-- After the stores `d[0] = 0`, ..., `d[n-1] = 0` every entry below `n` reads
as zero. -/
theorem foldl_set_zero (n : Nat) :
    ∀ (data : List Nat) (j : Nat), j < n →
      ((List.range n).foldl (fun d i => d.set i 0) data).getD j 0 = 0 := by
  induction n with
  | zero => intro data j h; omega
  | succ n ih =>
    intro data j h
    rw [List.range_succ, List.foldl_append]
    simp only [List.foldl_cons, List.foldl_nil]
    by_cases hj : j = n
    · subst hj
      simp only [List.getD_eq_getElem?_getD]
      rw [List.getElem?_set]
      simp only [if_true]
      split <;> simp
    · rw [getD_set_ne _ _ _ _ (Ne.symm hj)]
      exact ih data j (by omega)

/-- After the reset loop the first 128 bytes of the buffer are zero. -/
theorem resetData_getD (data : List Nat) (j : Nat) (h : j < 128) :
    (resetData data).getD j 0 = 0 :=
  foldl_set_zero 128 data j h

/-- The transfer loop on two buffers of the declared size: the same flag, the
same transport, and the same content wherever the buffers agreed or a byte was
stored. -/
theorem readPayload_alike (n : Nat) :
    ∀ (i : Nat) (data other : List Nat) (s : Serial),
      data.length = dataRealSize → other.length = dataRealSize →
      (readPayload n i data s).1 = (readPayload n i other s).1 ∧
        (readPayload n i data s).2.2 = (readPayload n i other s).2.2 ∧
        (readPayload n i data s).2.1.length = dataRealSize ∧
        (readPayload n i other s).2.1.length = dataRealSize ∧
        ∀ j, (data.getD j 0 = other.getD j 0 ∨ (i ≤ j ∧ j < i + n ∧ j < dataRealSize)) →
          (readPayload n i data s).2.1.getD j 0 = (readPayload n i other s).2.1.getD j 0 := by
  induction n with
  | zero =>
    intro i data other s hd ho
    refine ⟨rfl, rfl, hd, ho, ?_⟩
    intro j hj
    rcases hj with h | h
    · exact h
    · omega
  | succ n ih =>
    intro i data other s hd ho
    simp only [readPayload]
    split_ifs with hi
    · obtain ⟨h1, h2, h3, h4, h5⟩ := ih (i + 1) (data.set i (toByte s.read.1))
        (other.set i (toByte s.read.1)) s.read.2 (by simp [hd]) (by simp [ho])
      refine ⟨h1, h2, h3, h4, ?_⟩
      intro j hj
      apply h5
      by_cases hji : j = i
      · left
        subst hji
        simp only [List.getD_eq_getElem?_getD]
        rw [List.getElem?_set_self (by omega), List.getElem?_set_self (by omega)]
      · rcases hj with h | h
        · left
          rw [getD_set_ne _ _ _ _ (Ne.symm hji), getD_set_ne _ _ _ _ (Ne.symm hji)]
          exact h
        · right
          omega
    · refine ⟨rfl, rfl, hd, ho, ?_⟩
      intro j hj
      rcases hj with h | h
      · exact h
      · omega

/-- A transfer that completes stays inside the buffer. -/
theorem readPayload_frame_flag (n : Nat) :
    ∀ (i : Nat) (data : List Nat) (s : Serial),
      (readPayload n i data s).1 = true → i + n ≤ dataRealSize ∨ n = 0 := by
  induction n with
  | zero => intro i data s _; exact Or.inr rfl
  | succ n ih =>
    intro i data s h
    simp only [readPayload] at h
    split_ifs at h with hi
    rcases ih (i + 1) _ _ h with h1 | h1
    · left; omega
    · left; omega

/-- The synchronizer ends alike on two states with the same buffer. -/
theorem synchronize_alike (getFunction : Nat → Option Function) (a b : DriverState)
    (s : Serial) (h : a.SameBuffer b) :
    Phase.Alike getFunction DriverState.SameBuffer (synchronize a s) (synchronize b s) := by
  simp only [synchronize]
  split_ifs <;>
    first
    | exact ⟨rfl, rfl, rfl, rfl⟩
    | exact ⟨rfl, h⟩

/-- The header phase ends alike on two states with the same buffer, and stores
the same header. -/
theorem readHeader_alike (getFunction : Nat → Option Function) (a b : DriverState)
    (s : Serial) (h : a.SameBuffer b) :
    Phase.Alike getFunction DriverState.SameHeader (readHeader a s) (readHeader b s) := by
  simp only [readHeader]
  split_ifs <;>
    first
    | exact ⟨rfl, rfl, rfl, rfl⟩
    | exact ⟨rfl, h, rfl, rfl⟩

/-- The frame phase ends alike on two states with the same header, and stores
the same frame. -/
theorem readFrame_alike (getFunction : Nat → Option Function) (a b : DriverState)
    (s : Serial) (h : a.SameHeader b) :
    Phase.Alike getFunction DriverState.SameFrame (readFrame a s) (readFrame b s) := by
  obtain ⟨⟨hda, hdb, haa, hab, hbuf⟩, hc, hl⟩ := h
  obtain ⟨h1, h2, h3, h4, h5⟩ := readPayload_alike (a.lengthByte + 4) 0 a.data b.data
    (expectNumberOfBytesToArrive (a.lengthByte + 4) s).2 hda hdb
  simp only [readFrame, ← hl, ← h1, ← h2]
  split_ifs with he hp
  · exact ⟨rfl, rfl, rfl, rfl⟩
  · exact ⟨rfl, rfl, rfl, rfl⟩
  · have hflag : ∀ j, j < a.lengthByte + 4 → j < dataRealSize := by
      intro j hj
      have hok := (readPayload_frame_flag (a.lengthByte + 4) 0 a.data
        (expectNumberOfBytesToArrive (a.lengthByte + 4) s).2) (by simpa using hp)
      omega
    refine ⟨rfl, ⟨⟨h3, h4, haa, hab, ?_⟩, hc, rfl⟩, ?_, ?_, ?_⟩
    · intro j hj
      exact h5 j (Or.inl (hbuf j hj))
    · intro j hj
      have hj1 : j < a.lengthByte + 4 := hj
      exact h5 j (Or.inr ⟨Nat.zero_le _, by omega, hflag j hj1⟩)
    · exact h5 _ (Or.inr ⟨Nat.zero_le _, by omega, hflag _ (by omega)⟩)
    · exact h5 _ (Or.inr ⟨Nat.zero_le _, by omega, hflag _ (by omega)⟩)

/-- The terminator phase ends alike on two states with the same frame. -/
theorem readTerminator_alike (getFunction : Nat → Option Function) (a b : DriverState)
    (s : Serial) (h : a.SameFrame b) :
    Phase.Alike getFunction DriverState.SameFrame (readTerminator a s)
      (readTerminator b s) := by
  simp only [readTerminator]
  split_ifs <;>
    first
    | exact ⟨rfl, rfl, rfl, rfl⟩
    | exact ⟨rfl, h⟩

/-- Sequencing of phases that end alike. -/
theorem andThen_alike (getFunction : Nat → Option Function)
    (R R2 : DriverState → DriverState → Prop) (p q : Phase)
    (next : DriverState → Serial → Phase) (h : Phase.Alike getFunction R p q)
    (hnext : ∀ a b s, R a b → Phase.Alike getFunction R2 (next a s) (next b s)) :
    Phase.Alike getFunction R2 (p.andThen next) (q.andThen next) := by
  cases p with
  | abort o =>
    cases q with
    | abort o2 => exact h
    | proceed b s2 => exact h.elim
  | proceed a s =>
    cases q with
    | abort o2 => exact h.elim
    | proceed b s2 =>
      obtain ⟨hs, hr⟩ := h
      subst hs
      exact hnext a b s hr

/-- After the reset loop two well-formed states hold the same buffer. -/
theorem sameBuffer_reset (a b : DriverState) (ha : a.WellFormed) (hb : b.WellFormed) :
    DriverState.SameBuffer { a with data := resetData a.data }
      { b with data := resetData b.data } := by
  unfold DriverState.SameBuffer
  dsimp only
  refine ⟨?_, ?_, ?_, ?_, ?_⟩
  · exact (length_resetData a.data).trans ha.1
  · exact (length_resetData b.data).trans hb.1
  · exact ha.2
  · exact hb.2
  · intro j hj
    exact (resetData_getD a.data j hj).trans (resetData_getD b.data j hj).symm

/-- The frame reader ends alike on any two well-formed states. -/
theorem receive_alike (getFunction : Nat → Option Function) (a b : DriverState)
    (s : Serial) (ha : a.WellFormed) (hb : b.WellFormed) :
    Phase.Alike getFunction DriverState.SameFrame (receive a s) (receive b s) := by
  have h0 := sameBuffer_reset a b ha hb
  unfold receive
  refine andThen_alike getFunction _ _ _ _ _ ?_ (readTerminator_alike getFunction)
  refine andThen_alike getFunction _ _ _ _ _ ?_ (readFrame_alike getFunction)
  refine andThen_alike getFunction _ _ _ _ _ ?_ (readHeader_alike getFunction)
  exact synchronize_alike getFunction _ _ s h0

/-- The argument loop fails, whatever the table holds, when an argument type is
`VOIDT` or the table is too small. -/
theorem sliceArguments_fail (types : List FunctionType) :
    ∀ (i pos : Nat) (table : List Nat), i ≤ argumentsDataSize →
      ¬ ((∀ t ∈ types, t ≠ FunctionType.VOIDT) ∧ i + types.length ≤ argumentsDataSize) →
      sliceArguments types i pos table = none := by
  induction types with
  | nil =>
    intro i pos table hi h
    exact absurd ⟨fun t ht => absurd ht (by simp), by simpa using hi⟩ h
  | cons t ts ih =>
    intro i pos table hi h
    simp only [sliceArguments]
    split_ifs with h15
    · cases hs : getSize t with
      | none => rfl
      | some w =>
        simp only
        apply ih (i + 1) (pos + w) _ (by omega)
        intro hc
        apply h
        refine ⟨?_, by simp only [List.length_cons]; omega⟩
        intro x hx
        rcases List.mem_cons.mp hx with hx1 | hx1
        · subst hx1
          intro hv
          rw [hv] at hs
          simp [getSize] at hs
        · exact hc.1 x hx1
    · rfl

/-- No argument is wider than eight bytes. -/
theorem width_le (t : FunctionType) : (getSize t).getD 0 ≤ 8 := by
  cases t <;> decide

/-- The first `i` argument widths add up to at most eight times their number. -/
theorem sum_take_widths_le (types : List FunctionType) (i : Nat) :
    ((argumentWidths types).take i).sum ≤ 8 * min i types.length := by
  induction types generalizing i with
  | nil => simp [argumentWidths]
  | cons t ts ih =>
    cases i with
    | zero => simp
    | succ i =>
      have h1 := ih i
      have h2 := width_le t
      simp only [argumentWidths, List.map_cons, List.take_succ_cons, List.sum_cons,
        List.length_cons] at h1 ⊢
      have h3 : min (i + 1) (ts.length + 1) = min i ts.length + 1 := by omega
      rw [h3]
      omega

/-- With at most fifteen arguments every argument window ends within the first
128 bytes of the buffer. -/
theorem window_end_le (types : List FunctionType) (i : Nat)
    (hn : types.length ≤ 15) :
    windowStart types i + (argumentWidths types).getD i 0 ≤ dataMaxSize := by
  have h := sum_take_widths_le types (i + 1)
  rw [sum_take_succ] at h
  have hm : min (i + 1) types.length ≤ 15 := by omega
  simp only [windowStart, dataMaxSize]
  omega

/-- Two buffers that agree on their first 128 bytes hold the same bytes in every
window inside that range. -/
theorem window_eq (data other : List Nat) (p w : Nat)
    (hd : data.length = dataRealSize) (ho : other.length = dataRealSize)
    (h : ∀ j, j < dataMaxSize → data.getD j 0 = other.getD j 0)
    (hpw : p + w ≤ dataMaxSize) :
    (data.drop p).take w = (other.drop p).take w := by
  apply List.ext_getElem?
  intro i
  simp only [List.getElem?_take, List.getElem?_drop]
  split_ifs with hi
  · have hj : p + i < dataMaxSize := by omega
    have hlt : p + i < dataRealSize := by
      simp only [dataMaxSize] at hj
      simp only [dataRealSize]
      omega
    have e := h (p + i) hj
    simp only [List.getD_eq_getElem?_getD] at e
    have hl1 : p + i < data.length := by omega
    have hl2 : p + i < other.length := by omega
    have e1 : data[p + i]? = some data[p + i] := List.getElem?_eq_getElem hl1
    have e2 : other[p + i]? = some other[p + i] := List.getElem?_eq_getElem hl2
    rw [e1, e2] at e ⊢
    simpa using e
  · rfl

/-- The argument bytes are the same for two buffers that agree on their first
128 bytes and two tables that hold the window starts. -/
theorem argumentBytes_eq (types : List FunctionType) (data other table table2 : List Nat)
    (hd : data.length = dataRealSize) (ho : other.length = dataRealSize)
    (h : ∀ j, j < dataMaxSize → data.getD j 0 = other.getD j 0)
    (hn : types.length ≤ 15)
    (ht : ∀ i, i < types.length → table.getD i 0 = windowStart types i)
    (ht2 : ∀ i, i < types.length → table2.getD i 0 = windowStart types i) :
    argumentBytes types data table = argumentBytes types other table2 := by
  simp only [argumentBytes]
  apply List.map_congr_left
  intro i hi
  rw [List.mem_range] at hi
  rw [ht i hi, ht2 i hi]
  exact window_eq data other _ _ hd ho h (window_end_le types i hn)

/-- The dispatch cannot be told apart on two states with the same command byte
and the same buffer, when callables read only their argument bytes. -/
theorem dispatch_alike (getFunction : Nat → Option Function) (buf : StackBuf)
    (a b : DriverState) (s : Serial)
    (hreg : ∀ cmd f, getFunction cmd = some f → f.ReadsOnlyArguments)
    (hc : a.commandByte = b.commandByte) (hsb : a.SameBuffer b) :
    (dispatch getFunction buf a s).SameObservations getFunction
      (dispatch getFunction buf b s) := by
  obtain ⟨hda, hdb, haa, hab, hbuf⟩ := hsb
  simp only [dispatch, ← hc]
  split_ifs with hcmd
  · exact ⟨rfl, rfl, rfl, rfl⟩
  · cases hf : getFunction a.commandByte with
    | none => exact ⟨rfl, rfl, rfl, rfl⟩
    | some f =>
      simp only
      by_cases hC : (∀ t ∈ f.getArgumentTypes, t ≠ FunctionType.VOIDT) ∧
          0 + f.getArgumentTypes.length ≤ argumentsDataSize
      · obtain ⟨r1, hs1, -, -, hm1, -⟩ :=
          sliceArguments_spec f.getArgumentTypes 0 2 a.argumentsData hC.1 hC.2 haa
        obtain ⟨r2, hs2, -, -, hm2, -⟩ :=
          sliceArguments_spec f.getArgumentTypes 0 2 b.argumentsData hC.1 hC.2 hab
        have hbytes : argumentBytes f.getArgumentTypes a.data r1 =
            argumentBytes f.getArgumentTypes b.data r2 := by
          apply argumentBytes_eq _ _ _ _ _ hda hdb hbuf
          · have := hC.2
            simp only [argumentsDataSize] at this
            omega
          · intro i hi
            have := hm1 i hi
            rw [Nat.zero_add] at this
            exact this
          · intro i hi
            have := hm2 i hi
            rw [Nat.zero_add] at this
            exact this
        have hex : f.execute a.data r1 = f.execute b.data r2 :=
          hreg a.commandByte f hf _ _ _ _ hbytes
        simp only [hs1, hs2, hex]
        split_ifs with hv
        · refine ⟨rfl, rfl, rfl, ?_⟩
          simp [callBytes, hf, hbytes]
        · cases hg : getSize f.getReturnType with
          | none => exact ⟨rfl, rfl, rfl, rfl⟩
          | some w =>
            refine ⟨rfl, rfl, rfl, ?_⟩
            simp [callBytes, hf, hbytes]
      · rw [sliceArguments_fail _ 0 2 a.argumentsData (Nat.zero_le _) hC,
          sliceArguments_fail _ 0 2 b.argumentsData (Nat.zero_le _) hC]
        exact ⟨rfl, rfl, rfl, rfl⟩

/-- The integrity check computes the same complement bytes and takes the same
decision on two states with the same frame. -/
theorem computeChecks_alike (a b : DriverState) (h : a.SameFrame b) :
    (computeChecks a).c0 = (computeChecks b).c0 ∧ (computeChecks a).c1 = (computeChecks b).c1 ∧
      (sanityCheckFails (computeChecks a) ↔ sanityCheckFails (computeChecks b)) := by
  obtain ⟨⟨⟨hda, hdb, haa, hab, hbuf⟩, hc, hl⟩, hfr, hf1, hf2⟩ := h
  have hF : Fletcher16 a.data (b.lengthByte + 2) = Fletcher16 b.data (b.lengthByte + 2) :=
    Fletcher16_congr _ _ _ (fun j hj => hfr j (by omega))
  have h0 := hbuf 0 (by decide)
  have h1 := hbuf 1 (by decide)
  simp only [computeChecks, sanityCheckFails, hl, hF, hc, hf1, hf2, h0, h1]
  exact ⟨trivial, trivial, trivial⟩

/-- The byte at offset `p + i` is the byte at position `i` of a window that
starts at `p`. -/
theorem getD_eq_window (data : List Nat) (p i w : Nat) (h : i < w) :
    data.getD (p + i) 0 = ((data.drop p).take w).getD i 0 := by
  simp [List.getD_eq_getElem?_getD, List.getElem?_take, List.getElem?_drop, h]

/-- The callables of the example registry read only their argument bytes. -/
theorem exampleRegistry_readsOnlyArguments :
    ∀ cmd f, exampleRegistry cmd = some f → f.ReadsOnlyArguments := by
  intro cmd f h
  unfold exampleRegistry at h
  split at h
  · injection h with h
    subst h
    intro data table data2 table2 hb
    have hr : List.range 1 = [0] := rfl
    simp only [argumentBytes, argumentWidths, exampleIsZero, List.length_singleton, hr,
      List.map_cons, List.map_nil, List.cons.injEq, and_true, List.getD_cons_zero, getSize,
      sizeofByte, Option.getD_some] at hb
    have h1 := getD_eq_window data (table.getD 0 0) 0 1 (by decide)
    have h2 := getD_eq_window data2 (table2.getD 0 0) 0 1 (by decide)
    simp only [Nat.add_zero] at h1 h2
    simp only [exampleIsZero]
    rw [h1, h2, hb]
  · injection h with h
    subst h
    intro data table data2 table2 hb
    have hr : List.range 1 = [0] := rfl
    simp only [argumentBytes, argumentWidths, exampleAddWord, List.length_singleton, hr,
      List.map_cons, List.map_nil, List.cons.injEq, and_true, List.getD_cons_zero, getSize,
      sizeofInt16, Option.getD_some] at hb
    have h1 := getD_eq_window data (table.getD 0 0) 0 2 (by decide)
    have h2 := getD_eq_window data2 (table2.getD 0 0) 0 2 (by decide)
    have h3 := getD_eq_window data (table.getD 0 0) 1 2 (by decide)
    have h4 := getD_eq_window data2 (table2.getD 0 0) 1 2 (by decide)
    simp only [Nat.add_zero] at h1 h2
    simp only [exampleAddWord]
    rw [h1, h2, h3, h4, hb]
  · injection h with h
    subst h
    intro data table data2 table2 _
    rfl
  · simp at h

/-- The stores `d[0] = 0`, ..., `d[n-1] = 0` leave every entry from `n` on as it
was. -/
theorem foldl_set_ge (n : Nat) :
    ∀ (data : List Nat) (j : Nat), n ≤ j →
      ((List.range n).foldl (fun d i => d.set i 0) data).getD j 0 = data.getD j 0 := by
  induction n with
  | zero => intro data j _; rfl
  | succ n ih =>
    intro data j h
    rw [List.range_succ, List.foldl_append]
    simp only [List.foldl_cons, List.foldl_nil]
    rw [getD_set_ne _ _ _ _ (by omega)]
    exact ih data j (by omega)

/-- The reset loop leaves the bytes from index 128 on as they were. -/
theorem resetData_getD_ge (data : List Nat) (j : Nat) (h : 128 ≤ j) :
    (resetData data).getD j 0 = data.getD j 0 :=
  foldl_set_ge 128 data j h

/-- When the count `lengthByte + 4` fits the buffer, the frame phase stops only
by timeout: it returns with the state untouched. -/
theorem readFrame_abort (st : DriverState) (s : Serial) (o : Outcome)
    (hlen : st.lengthByte + 4 ≤ dataRealSize) (h : readFrame st s = .abort o) :
    o.status = .returned ∧ o.st = st := by
  have hflag := (readPayload_frame (st.lengthByte + 4) 0 st.data
    (expectNumberOfBytesToArrive (st.lengthByte + 4) s).2 (by omega)).1
  simp only [readFrame, hflag] at h
  split_ifs at h with he hf
  · simp only [Phase.abort.injEq] at h
    subst h
    exact ⟨rfl, rfl⟩
  · exact hf.elim

/-- When the frame phase proceeds it has kept the length byte, changed the
buffer only at the indices of the transfer loop, and copied the footer from the
indices `lengthByte + 2` and `lengthByte + 3`. -/
theorem readFrame_stores (st st1 : DriverState) (s s1 : Serial)
    (h : readFrame st s = .proceed st1 s1) :
    st1.lengthByte = st.lengthByte ∧
      (∀ j, j ∉ readPayloadIndices (st.lengthByte + 4) 0 →
        st1.data.getD j 0 = st.data.getD j 0) ∧
      st1.fletcherByte1 = st1.data.getD (st.lengthByte + 2) 0 ∧
      st1.fletcherByte2 = st1.data.getD (st.lengthByte + 3) 0 := by
  simp only [readFrame] at h
  split_ifs at h with he hp
  have hfit := readPayload_frame_flag (st.lengthByte + 4) 0 st.data
    (expectNumberOfBytesToArrive (st.lengthByte + 4) s).2 (by simpa using hp)
  have hfr := (readPayload_frame (st.lengthByte + 4) 0 st.data
    (expectNumberOfBytesToArrive (st.lengthByte + 4) s).2 (by omega)).2
  simp only [Phase.proceed.injEq] at h
  obtain ⟨h1, -⟩ := h
  subst h1
  refine ⟨rfl, ?_, rfl, rfl⟩
  intro j hj
  rw [mem_readPayloadIndices] at hj
  exact hfr j (by omega)

/-- The integrity check computes the same checksum and complement bytes on any
buffer that agrees with the current one at the indices `Fletcher16` reads. -/
theorem computeChecks_reads (st : DriverState) (other : List Nat)
    (h : ∀ i ∈ Fletcher16.indices (st.lengthByte + 2) 0, other.getD i 0 = st.data.getD i 0) :
    (computeChecks { st with data := other }).fletcher16 = (computeChecks st).fletcher16 ∧
      (computeChecks { st with data := other }).c0 = (computeChecks st).c0 ∧
      (computeChecks { st with data := other }).c1 = (computeChecks st).c1 := by
  have hF : Fletcher16 other (st.lengthByte + 2) = Fletcher16 st.data (st.lengthByte + 2) :=
    Fletcher16_congr _ _ _ (fun j hj => h j ((mem_Fletcher16_indices _ _ _).mpr (by omega)))
  simp only [computeChecks, hF]
  exact ⟨trivial, trivial, trivial⟩

/-- The synchronizer leaves the buffer as it was, however it ends. -/
theorem synchronize_st_data (a : DriverState) (s : Serial) :
    (synchronize a s).st.data = a.data := by
  simp only [synchronize]
  split_ifs <;> rfl

/-- The header phase leaves the buffer as it was, however it ends. -/
theorem readHeader_st_data (a : DriverState) (s : Serial) :
    (readHeader a s).st.data = a.data := by
  simp only [readHeader]
  split_ifs <;> rfl

/-- The frame phase keeps the length byte and, for a length of at most 124,
leaves the bytes from index 128 on as they were, however it ends. -/
theorem readFrame_st (a : DriverState) (s : Serial) :
    (readFrame a s).st.lengthByte = a.lengthByte ∧
      (a.lengthByte ≤ 124 → ∀ j, 128 ≤ j → (readFrame a s).st.data.getD j 0 = a.data.getD j 0) := by
  constructor
  · simp only [readFrame]
    split_ifs <;> rfl
  · intro hlen j hj
    have hfr := (readPayload_frame (a.lengthByte + 4) 0 a.data
      (expectNumberOfBytesToArrive (a.lengthByte + 4) s).2 (by unfold dataRealSize; omega)).2 j
      (Or.inr (by omega))
    simp only [readFrame]
    split_ifs
    · rfl
    · exact hfr
    · exact hfr

/-- The terminator phase leaves the state as it was, however it ends. -/
theorem readTerminator_st (a : DriverState) (s : Serial) : (readTerminator a s).st = a := by
  simp only [readTerminator]
  split_ifs <;> rfl

/-- When the length byte at the end of the frame reader is at most 124, the
bytes from index 128 on are those the cycle started with. -/
theorem receive_st (st : DriverState) (s : Serial)
    (hlen : (receive st s).st.lengthByte ≤ 124) (j : Nat) (hj : 128 ≤ j) :
    (receive st s).st.data.getD j 0 = st.data.getD j 0 := by
  have h1 := synchronize_st_data { st with data := resetData st.data } s
  have hreset := resetData_getD_ge st.data j hj
  unfold receive at hlen ⊢
  cases hs : synchronize { st with data := resetData st.data } s with
  | abort o =>
    rw [hs] at h1
    simp only [Phase.andThen, Phase.st] at h1 ⊢
    rw [h1]
    exact hreset
  | proceed a1 s1 =>
    rw [hs] at h1 hlen
    simp only [Phase.andThen, Phase.st] at h1 hlen ⊢
    have h2 := readHeader_st_data a1 s1
    cases hh : readHeader a1 s1 with
    | abort o =>
      rw [hh] at h2
      simp only [Phase.st] at h2 ⊢
      rw [h2, h1]
      exact hreset
    | proceed a2 s2 =>
      rw [hh] at h2 hlen
      simp only [Phase.st] at h2 hlen ⊢
      obtain ⟨h3, h4⟩ := readFrame_st a2 s2
      cases hf : readFrame a2 s2 with
      | abort o =>
        rw [hf] at h3 h4 hlen
        simp only [Phase.st] at h3 h4 hlen ⊢
        rw [h4 (by omega) j hj, h2, h1]
        exact hreset
      | proceed a3 s3 =>
        rw [hf] at h3 h4 hlen
        have h5 := readTerminator_st a3 s3
        simp only [Phase.st] at h3 h4 h5 hlen ⊢
        rw [h5] at hlen ⊢
        rw [h4 (by omega) j hj, h2, h1]
        exact hreset

/-- The dispatch leaves the buffer and the length byte as they were. -/
theorem dispatch_st (getFunction : Nat → Option Function) (buf : StackBuf)
    (a : DriverState) (s : Serial) :
    (dispatch getFunction buf a s).st.data = a.data ∧
      (dispatch getFunction buf a s).st.lengthByte = a.lengthByte := by
  simp only [dispatch]
  split_ifs
  · exact ⟨rfl, rfl⟩
  · split
    · exact ⟨rfl, rfl⟩
    · split
      · exact ⟨rfl, rfl⟩
      · split_ifs
        · exact ⟨rfl, rfl⟩
        · split <;> exact ⟨rfl, rfl⟩

/-- The buffer and the length byte at the end of the cycle are those at the end
of the frame reader. -/
theorem loop_st (getFunction : Nat → Option Function) (buf : StackBuf)
    (st : DriverState) (s : Serial) :
    (loop getFunction buf st s).st.data = (receive st s).st.data ∧
      (loop getFunction buf st s).st.lengthByte = (receive st s).st.lengthByte := by
  simp only [loop]
  cases hr : receive st s with
  | abort o => exact ⟨rfl, rfl⟩
  | proceed a s1 =>
    simp only [Phase.st]
    split_ifs
    · exact ⟨rfl, rfl⟩
    · exact dispatch_st getFunction buf (computeChecks a) s1

/-- When the frame reader proceeds, the buffer differs from the reset buffer
only at the indices of the transfer loop, and the footer bytes were copied from
the indices `lengthByte + 2` and `lengthByte + 3`. -/
theorem receive_stores (st st1 : DriverState) (s s1 : Serial)
    (h : receive st s = .proceed st1 s1) :
    (∀ j, j ∉ readPayloadIndices (st1.lengthByte + 4) 0 →
        st1.data.getD j 0 = (resetData st.data).getD j 0) ∧
      st1.fletcherByte1 = st1.data.getD (st1.lengthByte + 2) 0 ∧
      st1.fletcherByte2 = st1.data.getD (st1.lengthByte + 3) 0 := by
  unfold receive at h
  obtain ⟨a3, s3, h3, h4⟩ := andThen_proceed _ _ _ _ h
  obtain ⟨a2, s2, h2, h3⟩ := andThen_proceed _ _ _ _ h3
  obtain ⟨a1, s0, h1, h2⟩ := andThen_proceed _ _ _ _ h2
  have e1 := synchronize_st_data { st with data := resetData st.data } s
  rw [h1] at e1
  have e2 := readHeader_st_data a1 s0
  rw [h2] at e2
  simp only [Phase.st] at e1 e2
  obtain ⟨f1, f2, f3, f4⟩ := readFrame_stores a2 a3 s2 s3 h3
  obtain ⟨-, e4⟩ := readTerminator_proceed _ _ _ _ h4
  subst e4
  rw [f1]
  refine ⟨?_, f3, f4⟩
  intro j hj
  rw [f2 j hj, e2, e1]

/-- Independence of the member state: for the same transport, the same registry,
whose callables read only their argument bytes, and one and the same content of
the local `buf`, two cycles started from any two well-formed driver states end
with the same status, write the same output, consume the same input, make the
same registry lookups and pass the same argument bytes to the callable. -/
theorem cycle_state_independence (getFunction : Nat → Option Function) (buf : StackBuf)
    (st st2 : DriverState) (s : Serial) (hst : st.WellFormed) (hst2 : st2.WellFormed)
    (hreg : ∀ cmd f, getFunction cmd = some f → f.ReadsOnlyArguments) :
    (loop getFunction buf st s).status = (loop getFunction buf st2 s).status ∧
      (loop getFunction buf st s).serial.tx = (loop getFunction buf st2 s).serial.tx ∧
      (loop getFunction buf st s).serial.rx = (loop getFunction buf st2 s).serial.rx ∧
      (loop getFunction buf st s).lookups = (loop getFunction buf st2 s).lookups ∧
      (loop getFunction buf st s).calls.map (callBytes getFunction) =
        (loop getFunction buf st2 s).calls.map (callBytes getFunction) := by
  have key : (loop getFunction buf st s).SameObservations getFunction
      (loop getFunction buf st2 s) := by
    have hr := receive_alike getFunction st st2 s hst hst2
    simp only [loop]
    cases h1 : receive st s with
    | abort o =>
      cases h2 : receive st2 s with
      | abort o2 =>
        rw [h1, h2] at hr
        exact hr
      | proceed b s2 =>
        rw [h1, h2] at hr
        exact hr.elim
    | proceed a s1 =>
      cases h2 : receive st2 s with
      | abort o2 =>
        rw [h1, h2] at hr
        exact hr.elim
      | proceed b s2 =>
        rw [h1, h2] at hr
        obtain ⟨hs, hfr⟩ := hr
        subst hs
        obtain ⟨-, -, hiff⟩ := computeChecks_alike a b hfr
        simp only
        by_cases hfail : sanityCheckFails (computeChecks a)
        · rw [if_pos hfail, if_pos (hiff.mp hfail)]
          exact ⟨rfl, rfl, rfl, rfl⟩
        · rw [if_neg hfail, if_neg (fun h => hfail (hiff.mpr h))]
          exact dispatch_alike getFunction buf _ _ s1 hreg hfr.1.2.1 hfr.1.1
  obtain ⟨k1, k2, k3, k4⟩ := key
  exact ⟨k1, by rw [k2], by rw [k2], k3, k4⟩

/-- The frame of command 2 with payload `01`, run from `exampleState` and from
`exampleStateAfter` with the same `buf`: the same output. -/
theorem cycle_state_independence_example :
    (loop exampleRegistry exampleBuf exampleState
        ⟨requestBytes 2 1 [0x01] 0xf2 0x09, []⟩).serial.tx =
      (loop exampleRegistry exampleBuf exampleStateAfter
        ⟨requestBytes 2 1 [0x01] 0xf2 0x09, []⟩).serial.tx :=
  (cycle_state_independence exampleRegistry exampleBuf exampleState exampleStateAfter
    ⟨requestBytes 2 1 [0x01] 0xf2 0x09, []⟩ (by decide) (by decide)
    exampleRegistry_readsOnlyArguments).2.1

/-! # The claims -/

/-- Claim C1, checksum sensitivity: take any command byte, any declared length
of at most 124 and any payload of that length, written as `pre ++ b :: post`,
and the footer computed over `<cmd> <len> <payload>` as in section 4.3.  When
one bit `k` of the payload byte `b` is flipped while the footer and the
repeated command and length bytes are kept, the condition of the sanity check
of `loop` is true and the cycle ends in `WriteError`: it returns with the three
error markers written after the header echo, the driver having consulted no
registry entry and invoked no callable. -/
theorem checksum_sensitivity (getFunction : Nat → Option Function) (buf : StackBuf)
    (st : DriverState) (tx0 rest : List Nat) (cmd len : Nat) (pre post : List Nat)
    (b k : Nat) (hst : st.WellFormed) (hcmd : cmd < 256) (hlen : len ≤ 124)
    (hpay : (pre ++ b :: post).length = len) (hpre : ∀ x ∈ pre, x < 256) (hb : b < 256)
    (hpost : ∀ x ∈ post, x < 256) (hk : k < 8) :
    sanityCheckFails (checkedState st cmd len
        (cmd :: len :: (pre ++ (b ^^^ 2 ^ k) :: post) ++
          [(frameFooter cmd len (pre ++ b :: post)).1,
            (frameFooter cmd len (pre ++ b :: post)).2])) ∧
      loop getFunction buf st
          ⟨requestBytes cmd len (pre ++ (b ^^^ 2 ^ k) :: post)
              (frameFooter cmd len (pre ++ b :: post)).1
              (frameFooter cmd len (pre ++ b :: post)).2 ++ rest, tx0⟩ =
        ⟨.returned,
          checkedState st cmd len
            (cmd :: len :: (pre ++ (b ^^^ 2 ^ k) :: post) ++
              [(frameFooter cmd len (pre ++ b :: post)).1,
                (frameFooter cmd len (pre ++ b :: post)).2]),
          ⟨rest, tx0 ++ ackAndEcho cmd len ++ [0xef, 0xef, 0xef]⟩, [], []⟩ := by
  obtain ⟨hne, hlt⟩ := flip_bit_mod ⟨b, hb⟩ ⟨k, hk⟩
  simp only at hne hlt
  have hpay2 : (pre ++ (b ^^^ 2 ^ k) :: post).length = len := by
    simpa using hpay
  have hbytes : ∀ x ∈ pre ++ (b ^^^ 2 ^ k) :: post, x < 256 := by
    intro x hx
    simp only [List.mem_append, List.mem_cons] at hx
    rcases hx with h | h | h
    · exact hpre x h
    · omega
    · exact hpost x h
  have hft := frameFooter_lt cmd len (pre ++ b :: post)
  have hfail : sanityCheckFails (checkedState st cmd len
      (cmd :: len :: (pre ++ (b ^^^ 2 ^ k) :: post) ++
        [(frameFooter cmd len (pre ++ b :: post)).1,
          (frameFooter cmd len (pre ++ b :: post)).2])) :=
    (sanityCheckFails_iff st cmd len _ _ _ hpay2).mpr
      (frameFooter_flip cmd len pre post b k hcmd (by omega) hpre hb hpost hk)
  refine ⟨hfail, ?_⟩
  rw [loop_frame getFunction buf st tx0 rest cmd len _ _ _ hst.1 hcmd (by omega) hpay2 hbytes
    hft.1 hft.2, if_pos hfail]
  simp [WriteError, Serial.write, ERROR_MARKER]

/-- Witness for C1: command 2, length 1, payload byte `01` with its lowest bit
flipped and the footer `F2 09` of the original payload. -/
theorem checksum_sensitivity_witness :
    (loop exampleRegistry exampleBuf exampleState
        ⟨requestBytes 2 1 [0x00] 0xf2 0x09, []⟩).serial.tx =
      ackAndEcho 2 1 ++ [0xef, 0xef, 0xef] := by
  have h := (checksum_sensitivity exampleRegistry exampleBuf exampleState [] [] 2 1 [] [] 0x01 0
    (by decide) (by decide) (by decide) (by decide) (by simp) (by decide) (by simp)
    (by decide)).2
  exact congrArg (fun o => o.serial.tx) h

/-- Claim C2, checksum round trip: for any command byte, any declared length of
at most 124 and any payload of that length, the request
`<cmd> <len> <payload> <c0> <c1>` whose footer is computed over
`<cmd> <len> <payload>` as in section 4.3, sent after a header with the same
command and length, passes the sanity check of `loop`: the condition is false,
nothing but the sync acknowledgement and the header echo has been written, and
the cycle continues with the dispatch. -/
theorem checksum_round_trip (getFunction : Nat → Option Function) (buf : StackBuf)
    (st : DriverState) (tx0 rest : List Nat) (cmd len : Nat) (payload : List Nat)
    (hst : st.WellFormed) (hcmd : cmd < 256) (hlen : len ≤ 124)
    (hpay : payload.length = len) (hbytes : ∀ x ∈ payload, x < 256) :
    ¬ sanityCheckFails (checkedState st cmd len
        (cmd :: len :: payload ++
          [(frameFooter cmd len payload).1, (frameFooter cmd len payload).2])) ∧
      loop getFunction buf st
          ⟨requestBytes cmd len payload (frameFooter cmd len payload).1
              (frameFooter cmd len payload).2 ++ rest, tx0⟩ =
        dispatch getFunction buf
          (checkedState st cmd len
            (cmd :: len :: payload ++
              [(frameFooter cmd len payload).1, (frameFooter cmd len payload).2]))
          ⟨rest, tx0 ++ ackAndEcho cmd len⟩ := by
  have hft := frameFooter_lt cmd len payload
  have hok : ¬ sanityCheckFails (checkedState st cmd len
      (cmd :: len :: payload ++
        [(frameFooter cmd len payload).1, (frameFooter cmd len payload).2])) := by
    rw [sanityCheckFails_iff st cmd len _ _ _ hpay]
    simp
  refine ⟨hok, ?_⟩
  rw [loop_frame getFunction buf st tx0 rest cmd len _ _ _ hst.1 hcmd (by omega) hpay hbytes
    hft.1 hft.2, if_neg hok]

/-- Witness for C2: command 2, length 1, payload `01`, footer `F2 09`. -/
theorem checksum_round_trip_witness :
    loop exampleRegistry exampleBuf exampleState ⟨requestBytes 2 1 [0x01] 0xf2 0x09, []⟩ =
      dispatch exampleRegistry exampleBuf
        (checkedState exampleState 2 1 [2, 1, 0x01, 0xf2, 0x09]) ⟨[], ackAndEcho 2 1⟩ := by
  have h := (checksum_round_trip exampleRegistry exampleBuf exampleState [] [] 2 1 [0x01]
    (by decide) (by decide) (by decide) (by decide) (by decide)).2
  exact h

/-- Claim C3, integrity failure: in every cycle in which the frame reader gets
past sync, header, frame and terminator, if the first footer byte differs from
`c0`, or the second from `c1`, or buffer byte 0 differs from the command byte
of the header, or buffer byte 1 from its length byte, the cycle returns, the
bytes written after the sync acknowledgement and the header echo are exactly
`EF EF EF`, the registry is not consulted and no callable is invoked. -/
theorem integrity_failure (getFunction : Nat → Option Function) (buf : StackBuf)
    (st st1 : DriverState) (s s1 : Serial) (hrecv : receive st s = .proceed st1 s1)
    (hbad : st1.fletcherByte1 ≠ (computeChecks st1).c0 ∨
      st1.fletcherByte2 ≠ (computeChecks st1).c1 ∨
      st1.data.getD 0 0 ≠ st1.commandByte ∨ st1.data.getD 1 0 ≠ st1.lengthByte) :
    (loop getFunction buf st s).status = .returned ∧
      (loop getFunction buf st s).serial.tx =
        s.tx ++ ackAndEcho st1.commandByte st1.lengthByte ++ [0xef, 0xef, 0xef] ∧
      (loop getFunction buf st s).lookups = [] ∧ (loop getFunction buf st s).calls = [] := by
  have hfail : sanityCheckFails (computeChecks st1) := by
    simp only [sanityCheckFails, computeChecks]
    simp only [computeChecks] at hbad
    rcases hbad with h | h | h | h
    · exact Or.inl (Ne.symm h)
    · exact Or.inr (Or.inl (Ne.symm h))
    · exact Or.inr (Or.inr (Or.inl (Ne.symm h)))
    · exact Or.inr (Or.inr (Or.inr (Ne.symm h)))
  have htx := receive_proceed st st1 s s1 hrecv
  simp only [loop, hrecv, if_pos hfail]
  simp [WriteError, Serial.write, ERROR_MARKER, htx]

/-- Witness for C3: the frame of command 2 with payload `01` whose first footer
byte `F2` is replaced by `F3`. -/
theorem integrity_failure_witness :
    (loop exampleRegistry exampleBuf exampleState
          ⟨requestBytes 2 1 [0x01] 0xf3 0x09, []⟩).serial.tx =
        ackAndEcho 2 1 ++ [0xef, 0xef, 0xef] ∧
      (loop exampleRegistry exampleBuf exampleState
          ⟨requestBytes 2 1 [0x01] 0xf3 0x09, []⟩).calls = [] := by
  have h := integrity_failure exampleRegistry exampleBuf exampleState
    (receivedState exampleState 2 1 [2, 1, 0x01, 0xf3, 0x09])
    ⟨requestBytes 2 1 [0x01] 0xf3 0x09, []⟩ ⟨[], ackAndEcho 2 1⟩ (by decide) (by decide)
  exact ⟨h.2.1, h.2.2.2⟩

/-- Claim C4, evaluated on the code: the registered callable of command 2 takes
one unsigned 8-bit argument and returns a boolean; called with the argument
byte `01` it produces `00`.  The cycle writes `F9 01 00` and then a fourth
byte, the content of the uninitialised `buf[0]`: the switch has sent the result
byte, and the call `Serial.write(buf, returnTypeSize)` after it sends one byte
of `buf` more. -/
theorem single_byte_return_extra_byte (buf : StackBuf) :
    (loop exampleRegistry buf exampleState ⟨requestBytes 2 1 [0x01] 0xf2 0x09, []⟩).status =
        .returned ∧
      (loop exampleRegistry buf exampleState ⟨requestBytes 2 1 [0x01] 0xf2 0x09, []⟩).serial.tx =
        ackAndEcho 2 1 ++ [0xf9, 0x01, 0x00, buf.b0 % 256] := by
  have h := loop_one_byte exampleRegistry buf exampleState
    (receivedState exampleState 2 1 [2, 1, 0x01, 0xf2, 0x09])
    ⟨requestBytes 2 1 [0x01] 0xf2 0x09, []⟩ ⟨[], ackAndEcho 2 1⟩ exampleIsZero
    ([2] ++ List.replicate 14 0) (by decide) (by decide) (by decide) rfl
    (by decide) (by decide)
  exact h

/-- Claim C5, 16-bit return marshaling: in every cycle whose frame passes the
sanity check, whose command is not the handshake and resolves to a callable
with return type `INTT`, `UINTT`, `WORD` or `SHORT`, and whose argument loop
completes, the callable is invoked once and, `v` being the value it leaves in
the result buffer, the bytes written after the header echo are exactly
`F9 02 (v mod 256) ((v div 256) mod 256)`. -/
theorem marshal_16_bit (getFunction : Nat → Option Function) (buf : StackBuf)
    (st st1 : DriverState) (s s1 : Serial) (function : Function) (argumentsData : List Nat)
    (hrecv : receive st s = .proceed st1 s1)
    (hok : ¬ sanityCheckFails (computeChecks st1))
    (hcmd : st1.commandByte ≠ CMD_HANDSHAKE_INITIATE)
    (hfun : getFunction st1.commandByte = some function)
    (hret : function.getReturnType = .INTT ∨ function.getReturnType = .UINTT ∨
      function.getReturnType = .WORD ∨ function.getReturnType = .SHORT)
    (hargs : sliceArguments function.getArgumentTypes 0 2 st1.argumentsData =
      some argumentsData) :
    (loop getFunction buf st s).status = .returned ∧
      (loop getFunction buf st s).calls = [⟨st1.commandByte, st1.data, argumentsData⟩] ∧
      (loop getFunction buf st s).serial.tx =
        s.tx ++ ackAndEcho st1.commandByte st1.lengthByte ++
          [0xf9, 2, function.execute st1.data argumentsData % 256,
            function.execute st1.data argumentsData / 256 % 256] := by
  have htx := receive_proceed st st1 s s1 hrecv
  have hcmd1 : ¬ (computeChecks st1).commandByte = CMD_HANDSHAKE_INITIATE := hcmd
  have hfun1 : getFunction (computeChecks st1).commandByte = some function := hfun
  have hargs1 : sliceArguments function.getArgumentTypes 0 2 (computeChecks st1).argumentsData =
      some argumentsData := hargs
  rw [loop_accepted getFunction buf st st1 s s1 hrecv hok]
  simp only [dispatch, if_neg hcmd1, hfun1, hargs1]
  rcases hret with h | h | h | h <;>
    simp [h, getSize, sizeofInt16, sizeofWord, sizeofUnsignedShort, marshal, writeBuffer,
      StackBuf.toList, Serial.write, START_OF_RESPONSE_MARKER, htx, low_byte_16, high_byte_16,
      computeChecks]

/-- Witness for C5: command 3 adds `0x0102` to its 16-bit argument `0x1234`;
the answer is `F9 02 36 13`. -/
theorem marshal_16_bit_witness :
    (loop exampleRegistry exampleBuf exampleState
        ⟨requestBytes 3 2 [0x34, 0x12] 0x28 0x8c, []⟩).serial.tx =
      ackAndEcho 3 2 ++ [0xf9, 0x02, 0x36, 0x13] := by
  have h := marshal_16_bit exampleRegistry exampleBuf exampleState
    (receivedState exampleState 3 2 [3, 2, 0x34, 0x12, 0x28, 0x8c])
    ⟨requestBytes 3 2 [0x34, 0x12] 0x28 0x8c, []⟩ ⟨[], ackAndEcho 3 2⟩ exampleAddWord
    ([2] ++ List.replicate 14 0) (by decide) (by decide) (by decide) rfl (by decide)
    (by decide)
  exact h.2.2

/-- Claim C6, counterexample: `getSize` gives `LONG` and `ULONG` the width 8,
the size of `long long`, not 2; the callable of command 4, which returns a
`LONG`, is answered with the width byte `08`, not `02`. -/
theorem getSize_long_is_eight :
    getSize FunctionType.LONG = some 8 ∧ getSize FunctionType.LONG ≠ some 2 ∧
      getSize FunctionType.ULONG = some 8 ∧ getSize FunctionType.ULONG ≠ some 2 ∧
      ((loop exampleRegistry exampleBuf exampleState
          ⟨requestBytes 4 0 [] 0xf3 0x08, []⟩).serial.tx.take 9 =
        ackAndEcho 4 0 ++ [0xf9, 0x08]) := by
  decide

/-- Claim C6 as amended, the byte-width table: `getSize` returns 1 for
`BOOLEANT`, `CHART`, `UCHART` and `BYTET`, 2 for `WORD`, `INTT`, `UINTT` and
`SHORT`, and 8 for `LONG` and `ULONG`; consequently a callable returning `LONG`
or `ULONG` is answered with the width byte `08`, followed first by the two
low-order bytes of its value. -/
theorem byte_width_table :
    (getSize FunctionType.BOOLEANT = some 1 ∧ getSize FunctionType.CHART = some 1 ∧
      getSize FunctionType.UCHART = some 1 ∧ getSize FunctionType.BYTET = some 1) ∧
    (getSize FunctionType.WORD = some 2 ∧ getSize FunctionType.INTT = some 2 ∧
      getSize FunctionType.UINTT = some 2 ∧ getSize FunctionType.SHORT = some 2) ∧
    (getSize FunctionType.LONG = some 8 ∧ getSize FunctionType.ULONG = some 8) ∧
    ∀ (getFunction : Nat → Option Function) (buf : StackBuf) (st st1 : DriverState)
      (s s1 : Serial) (function : Function) (argumentsData : List Nat),
      receive st s = .proceed st1 s1 →
      ¬ sanityCheckFails (computeChecks st1) →
      st1.commandByte ≠ CMD_HANDSHAKE_INITIATE →
      getFunction st1.commandByte = some function →
      (function.getReturnType = .LONG ∨ function.getReturnType = .ULONG) →
      sliceArguments function.getArgumentTypes 0 2 st1.argumentsData = some argumentsData →
      ∃ more, (loop getFunction buf st s).serial.tx =
        s.tx ++ ackAndEcho st1.commandByte st1.lengthByte ++
          [0xf9, 0x08, function.execute st1.data argumentsData % 256,
            function.execute st1.data argumentsData / 256 % 256] ++ more := by
  refine ⟨by decide, by decide, by decide, ?_⟩
  intro getFunction buf st st1 s s1 function argumentsData hrecv hok hcmd hfun hret hargs
  have htx := receive_proceed st st1 s s1 hrecv
  have hcmd1 : ¬ (computeChecks st1).commandByte = CMD_HANDSHAKE_INITIATE := hcmd
  have hfun1 : getFunction (computeChecks st1).commandByte = some function := hfun
  have hargs1 : sliceArguments function.getArgumentTypes 0 2 (computeChecks st1).argumentsData =
      some argumentsData := hargs
  rw [loop_accepted getFunction buf st st1 s s1 hrecv hok]
  simp only [dispatch, if_neg hcmd1, hfun1, hargs1]
  refine ⟨[buf.b2 % 256, buf.b3 % 256], ?_⟩
  rcases hret with h | h <;>
    simp [h, getSize, sizeofLongLong, marshal, writeBuffer, StackBuf.toList, Serial.write,
      START_OF_RESPONSE_MARKER, htx, low_byte_16, high_byte_16, computeChecks]

/-- Witness for C6 as amended: command 4 returns the `LONG` value
`0x1122334455667788`; the answer begins `F9 08 88 77`. -/
theorem byte_width_table_witness :
    ∃ more, (loop exampleRegistry exampleBuf exampleState
        ⟨requestBytes 4 0 [] 0xf3 0x08, []⟩).serial.tx =
      ackAndEcho 4 0 ++ [0xf9, 0x08, 0x88, 0x77] ++ more := by
  have h := byte_width_table.2.2.2 exampleRegistry exampleBuf exampleState
    (receivedState exampleState 4 0 [4, 0, 0xf3, 0x08])
    ⟨requestBytes 4 0 [] 0xf3 0x08, []⟩ ⟨[], ackAndEcho 4 0⟩ exampleLong
    (List.replicate 15 0) (by decide) (by decide) (by decide) rfl (Or.inl rfl) (by decide)
  exact h

/-- Claim C7, counterexample: `getSize` has no case for `VOIDT`; it returns the
unassigned local there, not the width 0. -/
theorem getSize_void_undefined :
    getSize FunctionType.VOIDT = none ∧ getSize FunctionType.VOIDT ≠ some 0 ∧
      ¬ (∀ t : FunctionType, ∃ w, getSize t = some w) := by
  refine ⟨rfl, by decide, ?_⟩
  intro h
  obtain ⟨w, hw⟩ := h FunctionType.VOIDT
  simp [getSize] at hw

/-- Claim C7 as amended: for every variant of `FunctionType` other than `VOIDT`
(ten variants), `getSize` returns a defined non-negative width, and that width
is 1, 2 or 8. -/
theorem getSize_defined (t : FunctionType) (h : t ≠ FunctionType.VOIDT) :
    ∃ w, getSize t = some w ∧ 0 ≤ w ∧ (w = 1 ∨ w = 2 ∨ w = 8) := by
  cases t <;> first | exact absurd rfl h | simp [getSize, sizeofBoolean, sizeofChar, sizeofByte,
    sizeofInt16, sizeofWord, sizeofLongLong, sizeofUnsignedShort]

/-- Witness for C7 as amended, at `SHORT`. -/
theorem getSize_defined_witness :
    FunctionType.SHORT ≠ FunctionType.VOIDT ∧
      ∃ w, getSize FunctionType.SHORT = some w ∧ 0 ≤ w ∧ (w = 1 ∨ w = 2 ∨ w = 8) :=
  ⟨by decide, getSize_defined FunctionType.SHORT (by decide)⟩

/-- Claim C8, evaluated on the code.  After the header `FB 02 FC` (length 252)
the count passed to `expectNumberOfBytesToArrive` is `(252 + 4) mod 256 = 0`,
so the wait succeeds with nothing available, and the transfer loop stores at
the indices `0, 1, 2, ...`: all 132 bytes of the buffer are overwritten (with
`FF`, the byte value of the `-1` that `Serial.read()` returns) and the store at
index 132 falls outside the array.  After the header `FB 02 81` (length 129)
with 133 frame bytes available the loop also reaches index 132.  In neither
case is an error signal written. -/
theorem oversized_length_overruns_buffer :
    (loop exampleRegistry exampleBuf exampleState
        ⟨syncPattern ++ [0xfb, 0x02, 0xfc], []⟩).status = .fault ∧
      (loop exampleRegistry exampleBuf exampleState
        ⟨syncPattern ++ [0xfb, 0x02, 0xfc], []⟩).serial.tx = ackAndEcho 0x02 0xfc ∧
      (loop exampleRegistry exampleBuf exampleState
        ⟨syncPattern ++ [0xfb, 0x02, 0xfc], []⟩).st.data = List.replicate 132 0xff ∧
      (readPayload (0xfc + 4) 0 (resetData exampleState.data)
        ⟨[], ackAndEcho 0x02 0xfc⟩).1 = false ∧
      (loop exampleRegistry exampleBuf exampleState
        ⟨syncPattern ++ [0xfb, 0x02, 0x81] ++ List.replicate 133 0x00 ++ [0xfa], []⟩).status =
          .fault ∧
      (loop exampleRegistry exampleBuf exampleState
        ⟨syncPattern ++ [0xfb, 0x02, 0x81] ++ List.replicate 133 0x00 ++ [0xfa], []⟩).serial.tx =
          ackAndEcho 0x02 0x81 := by
  decide

/-- Claim C9, evaluated on the code: command 9 is not in the registry.  For the
valid frame `09 00 E4 12` the cycle consults the registry, finds nothing and
goes on to use the missing entry: it ends in undefined behaviour, with nothing
written after the header echo. -/
theorem unknown_command_faults :
    loop exampleRegistry exampleBuf exampleState ⟨requestBytes 9 0 [] 0xe4 0x12, []⟩ =
      ⟨.fault, checkedState exampleState 9 0 [9, 0, 0xe4, 0x12], ⟨[], ackAndEcho 9 0⟩,
        [9], []⟩ := by
  decide

/-- Claim C10, handshake: in every cycle whose frame passes the sanity check
and whose command byte is `0x01`, the cycle returns, the bytes written after
the header echo are exactly `F9 03 02 01 02`, the registry is not consulted and
no callable is invoked. -/
theorem handshake_reply (getFunction : Nat → Option Function) (buf : StackBuf)
    (st st1 : DriverState) (s s1 : Serial) (hrecv : receive st s = .proceed st1 s1)
    (hok : ¬ sanityCheckFails (computeChecks st1))
    (hcmd : st1.commandByte = CMD_HANDSHAKE_INITIATE) :
    (loop getFunction buf st s).status = .returned ∧
      (loop getFunction buf st s).serial.tx =
        s.tx ++ ackAndEcho 0x01 st1.lengthByte ++ [0xf9, 0x03, 0x02, 0x01, 0x02] ∧
      (loop getFunction buf st s).lookups = [] ∧ (loop getFunction buf st s).calls = [] := by
  have htx := receive_proceed st st1 s s1 hrecv
  have hcmd1 : (computeChecks st1).commandByte = CMD_HANDSHAKE_INITIATE := hcmd
  rw [loop_accepted getFunction buf st st1 s s1 hrecv hok]
  simp only [dispatch, if_pos hcmd1]
  rw [hcmd] at htx
  simp [Serial.write, START_OF_RESPONSE_MARKER, ACK_HANDSHAKE_INITIATE, PROTOCOL_VERSION_MAJOR,
    PROTOCOL_VERSION_MINOR, htx, CMD_HANDSHAKE_INITIATE]

/-- Witness for C10: header `FB 01 00`, frame `01 00 FC 02`, terminator `FA`. -/
theorem handshake_reply_witness :
    (loop exampleRegistry exampleBuf exampleState
          ⟨[0xff, 0xfe, 0xfd, 0xfc, 0xfb, 0x01, 0x00, 0x01, 0x00, 0xfc, 0x02, 0xfa], []⟩).serial.tx =
        [0xfc, 0xfd, 0xfe, 0xff, 0x00, 0x01, 0xfb, 0xf9, 0x03, 0x02, 0x01, 0x02] ∧
      (loop exampleRegistry exampleBuf exampleState
          ⟨[0xff, 0xfe, 0xfd, 0xfc, 0xfb, 0x01, 0x00, 0x01, 0x00, 0xfc, 0x02, 0xfa], []⟩).lookups =
        [] := by
  have h := handshake_reply exampleRegistry exampleBuf exampleState
    (receivedState exampleState 1 0 [0x01, 0x00, 0xfc, 0x02])
    ⟨[0xff, 0xfe, 0xfd, 0xfc, 0xfb, 0x01, 0x00, 0x01, 0x00, 0xfc, 0x02, 0xfa], []⟩
    ⟨[], ackAndEcho 1 0⟩ (by decide) (by decide) (by decide)
  exact ⟨h.2.1, h.2.2.1⟩

/-- Claim C11, void return: in every cycle whose frame passes the sanity check,
whose command is not the handshake and resolves to a callable with return type
`VOIDT`, and whose argument loop completes, the callable is invoked exactly
once, the cycle returns, and the bytes written after the header echo are
exactly `F9 FC`: no width byte and no value bytes. -/
theorem void_return (getFunction : Nat → Option Function) (buf : StackBuf)
    (st st1 : DriverState) (s s1 : Serial) (function : Function) (argumentsData : List Nat)
    (hrecv : receive st s = .proceed st1 s1)
    (hok : ¬ sanityCheckFails (computeChecks st1))
    (hcmd : st1.commandByte ≠ CMD_HANDSHAKE_INITIATE)
    (hfun : getFunction st1.commandByte = some function)
    (hret : function.getReturnType = .VOIDT)
    (hargs : sliceArguments function.getArgumentTypes 0 2 st1.argumentsData =
      some argumentsData) :
    (loop getFunction buf st s).status = .returned ∧
      (loop getFunction buf st s).calls = [⟨st1.commandByte, st1.data, argumentsData⟩] ∧
      (loop getFunction buf st s).serial.tx =
        s.tx ++ ackAndEcho st1.commandByte st1.lengthByte ++ [0xf9, 0xfc] := by
  have htx := receive_proceed st st1 s s1 hrecv
  have hcmd1 : ¬ (computeChecks st1).commandByte = CMD_HANDSHAKE_INITIATE := hcmd
  have hfun1 : getFunction (computeChecks st1).commandByte = some function := hfun
  have hargs1 : sliceArguments function.getArgumentTypes 0 2 (computeChecks st1).argumentsData =
      some argumentsData := hargs
  rw [loop_accepted getFunction buf st st1 s s1 hrecv hok]
  simp only [dispatch, if_neg hcmd1, hfun1, hargs1]
  simp [hret, Serial.write, START_OF_RESPONSE_MARKER, VOID_RETURN_RESULT, htx, computeChecks]

/-- Witness for C11: command 5 of `exampleVoidRegistry`, called with the
argument byte `03`. -/
theorem void_return_witness :
    (loop exampleVoidRegistry exampleBuf exampleState
          ⟨requestBytes 5 1 [0x03] 0xe2 0x14, []⟩).serial.tx =
        ackAndEcho 5 1 ++ [0xf9, 0xfc] ∧
      (loop exampleVoidRegistry exampleBuf exampleState
          ⟨requestBytes 5 1 [0x03] 0xe2 0x14, []⟩).calls.length = 1 := by
  have h := void_return exampleVoidRegistry exampleBuf exampleState
    (receivedState exampleState 5 1 [5, 1, 0x03, 0xe2, 0x14])
    ⟨requestBytes 5 1 [0x03] 0xe2 0x14, []⟩ ⟨[], ackAndEcho 5 1⟩ exampleVoid
    ([2] ++ List.replicate 14 0) (by decide) (by decide) (by decide) rfl rfl (by decide)
  exact ⟨h.2.2, by rw [h.2.1]; rfl⟩

/-- Claim C12, evaluated on the code: after the header `FB 02 FC` (declared
length 252) three bytes arrive, fewer than the 256 of the frame phase.  The
count handed to `expectNumberOfBytesToArrive` is `(252 + 4) mod 256 = 0`, so
the wait succeeds: no error marker is written, and the transfer loop consumes
the three bytes and keeps reading and storing until it leaves the buffer. -/
theorem timeout_count_wraps :
    (loop exampleRegistry exampleBuf exampleState
        ⟨syncPattern ++ [0xfb, 0x02, 0xfc] ++ [0x01, 0x02, 0x03], []⟩).serial.tx =
        ackAndEcho 0x02 0xfc ∧
      (loop exampleRegistry exampleBuf exampleState
        ⟨syncPattern ++ [0xfb, 0x02, 0xfc] ++ [0x01, 0x02, 0x03], []⟩).serial.rx = [] ∧
      (loop exampleRegistry exampleBuf exampleState
        ⟨syncPattern ++ [0xfb, 0x02, 0xfc] ++ [0x01, 0x02, 0x03], []⟩).status = .fault ∧
      (expectNumberOfBytesToArrive (0xfc + 4) ⟨[0x01, 0x02, 0x03], ackAndEcho 0x02 0xfc⟩).1 =
        true := by
  decide

/-- Claim C13, bad sync: when four bytes are available and they are not exactly
`FF FE FD FC`, the cycle returns having written no byte, consulted no registry
entry and invoked no callable. -/
theorem bad_sync_is_silent (getFunction : Nat → Option Function) (buf : StackBuf)
    (st : DriverState) (b0 b1 b2 b3 : Nat) (rest tx0 : List Nat)
    (h0 : b0 < 256) (h1 : b1 < 256) (h2 : b2 < 256) (h3 : b3 < 256)
    (hne : [b0, b1, b2, b3] ≠ syncPattern) :
    (loop getFunction buf st ⟨b0 :: b1 :: b2 :: b3 :: rest, tx0⟩).status = .returned ∧
      (loop getFunction buf st ⟨b0 :: b1 :: b2 :: b3 :: rest, tx0⟩).serial.tx = tx0 ∧
      (loop getFunction buf st ⟨b0 :: b1 :: b2 :: b3 :: rest, tx0⟩).lookups = [] ∧
      (loop getFunction buf st ⟨b0 :: b1 :: b2 :: b3 :: rest, tx0⟩).calls = [] := by
  have hs := synchronize_four { st with data := resetData st.data } b0 b1 b2 b3 rest tx0
    h0 h1 h2 h3
  split_ifs at hs with c0 c1 c2 c3
  · rw [loop_of_abort _ _ _ _ _ (receive_of_sync_abort _ _ _ hs)]
    exact ⟨rfl, rfl, rfl, rfl⟩
  · rw [loop_of_abort _ _ _ _ _ (receive_of_sync_abort _ _ _ hs)]
    exact ⟨rfl, rfl, rfl, rfl⟩
  · rw [loop_of_abort _ _ _ _ _ (receive_of_sync_abort _ _ _ hs)]
    exact ⟨rfl, rfl, rfl, rfl⟩
  · rw [loop_of_abort _ _ _ _ _ (receive_of_sync_abort _ _ _ hs)]
    exact ⟨rfl, rfl, rfl, rfl⟩
  · exfalso
    apply hne
    simp only [ne_eq, not_not] at c0 c1 c2 c3
    simp [syncPattern, c0, c1, c2, c3]

/-- Witness for C13: the sync bytes `FF FE FD 00`. -/
theorem bad_sync_is_silent_witness :
    (loop exampleRegistry exampleBuf exampleState
        ⟨[0xff, 0xfe, 0xfd, 0x00, 0xfb, 0x01, 0x00], []⟩).serial.tx = [] ∧
      (loop exampleRegistry exampleBuf exampleState
        ⟨[0xff, 0xfe, 0xfd, 0x00, 0xfb, 0x01, 0x00], []⟩).calls = [] := by
  have h := bad_sync_is_silent exampleRegistry exampleBuf exampleState 0xff 0xfe 0xfd 0x00
    [0xfb, 0x01, 0x00] [] (by decide) (by decide) (by decide) (by decide) (by decide)
  exact ⟨h.2.1, h.2.2.2⟩

/-- Claim C14, sync acknowledgement and header echo: for every input that
begins `FF FE FD FC FB <cmd> <len>`, with any byte values of `cmd` and `len`,
the output of the cycle begins with exactly `FC FD FE FF <len> <cmd> FB`,
whatever the cycle does afterwards. -/
theorem ack_and_echo_first (getFunction : Nat → Option Function) (buf : StackBuf)
    (st : DriverState) (cmd len : Nat) (rest tx0 : List Nat)
    (hcmd : cmd < 256) (hlen : len < 256) :
    ∃ more, (loop getFunction buf st ⟨syncPattern ++ [0xfb, cmd, len] ++ rest, tx0⟩).serial.tx =
      tx0 ++ [0xfc, 0xfd, 0xfe, 0xff, len, cmd, 0xfb] ++ more := by
  have hp : (tx0 ++ [0xfc, 0xfd, 0xfe, 0xff, len, cmd, 0xfb]) <+:
      (receive st ⟨syncPattern ++ [0xfb, cmd, len] ++ rest, tx0⟩).tx := by
    simp only [receive, syncPattern, List.cons_append, List.nil_append, synchronize_sync,
      Phase.andThen, readHeader_header _ cmd len _ _ hcmd hlen]
    refine andThen_extends _ _ _ ?_ readTerminator_extends
    refine List.IsPrefix.trans ?_ (readFrame_extends _ _)
    simp
  obtain ⟨more, hmore⟩ := loop_extends getFunction buf st _ _ hp
  exact ⟨more, hmore.symm⟩

/-- Witness for C14: command `09` and length `FC`. -/
theorem ack_and_echo_first_witness :
    ∃ more, (loop exampleRegistry exampleBuf exampleState
        ⟨syncPattern ++ [0xfb, 0x09, 0xfc] ++ [0x01, 0x02], []⟩).serial.tx =
      [] ++ [0xfc, 0xfd, 0xfe, 0xff, 0xfc, 0x09, 0xfb] ++ more :=
  ack_and_echo_first exampleRegistry exampleBuf exampleState 0x09 0xfc [0x01, 0x02] []
    (by decide) (by decide)

/-- Claim C15, header mismatch: after a correct sync, when three bytes are
available and the first of them is not `FB`, the cycle returns and its whole
output is the sync acknowledgement `FC FD FE FF`: no header echo, no error
signal, no registry lookup and no call. -/
theorem header_mismatch_is_silent (getFunction : Nat → Option Function) (buf : StackBuf)
    (st : DriverState) (b c d : Nat) (rest tx0 : List Nat) (hb : b ≠ 0xfb) :
    (loop getFunction buf st ⟨syncPattern ++ b :: c :: d :: rest, tx0⟩).status = .returned ∧
      (loop getFunction buf st ⟨syncPattern ++ b :: c :: d :: rest, tx0⟩).serial.tx =
        tx0 ++ [0xfc, 0xfd, 0xfe, 0xff] ∧
      (loop getFunction buf st ⟨syncPattern ++ b :: c :: d :: rest, tx0⟩).lookups = [] ∧
      (loop getFunction buf st ⟨syncPattern ++ b :: c :: d :: rest, tx0⟩).calls = [] := by
  have hr : receive st ⟨syncPattern ++ b :: c :: d :: rest, tx0⟩ =
      .abort ⟨.returned, { st with data := resetData st.data, syncByte := 0xfc },
        ⟨c :: d :: rest, tx0 ++ [0xfc, 0xfd, 0xfe, 0xff]⟩, [], []⟩ := by
    simp only [receive, syncPattern, List.cons_append, List.nil_append, synchronize_sync,
      Phase.andThen, readHeader_mismatch _ b c d _ _ hb]
  rw [loop_of_abort _ _ _ _ _ hr]
  exact ⟨rfl, rfl, rfl, rfl⟩

/-- Witness for C15: the header bytes `00 01 00`. -/
theorem header_mismatch_is_silent_witness :
    (loop exampleRegistry exampleBuf exampleState
        ⟨[0xff, 0xfe, 0xfd, 0xfc, 0x00, 0x01, 0x00], []⟩).serial.tx =
      [0xfc, 0xfd, 0xfe, 0xff] := by
  have h := header_mismatch_is_silent exampleRegistry exampleBuf exampleState 0x00 0x01 0x00
    [] [] (by decide)
  exact h.2.1

/-- Claim C16, argument slicing: in every cycle whose frame passes the sanity
check and whose command resolves to a descriptor with at most fifteen argument
types, none of them `VOIDT`, the callable is handed a pointer table whose
`i`-th entry is `2` plus the widths of the arguments before it; the first
window starts at offset 2, each window starts where the one before it ends,
and a later window never begins before an earlier one ends. -/
theorem argument_slicing (getFunction : Nat → Option Function) (buf : StackBuf)
    (st st1 : DriverState) (s s1 : Serial) (function : Function)
    (hst : st.WellFormed)
    (hrecv : receive st s = .proceed st1 s1)
    (hok : ¬ sanityCheckFails (computeChecks st1))
    (hcmd : st1.commandByte ≠ CMD_HANDSHAKE_INITIATE)
    (hfun : getFunction st1.commandByte = some function)
    (hcount : function.getArgumentTypes.length ≤ 15)
    (htypes : ∀ t ∈ function.getArgumentTypes, t ≠ FunctionType.VOIDT) :
    ∃ table, (loop getFunction buf st s).calls = [⟨st1.commandByte, st1.data, table⟩] ∧
      (∀ i, i < function.getArgumentTypes.length →
        table.getD i 0 = windowStart function.getArgumentTypes i) ∧
      (0 < function.getArgumentTypes.length → table.getD 0 0 = 2) ∧
      (∀ i, i + 1 < function.getArgumentTypes.length →
        table.getD (i + 1) 0 =
          table.getD i 0 + (argumentWidths function.getArgumentTypes).getD i 0) ∧
      (∀ i j, i < j → j < function.getArgumentTypes.length →
        table.getD i 0 + (argumentWidths function.getArgumentTypes).getD i 0 ≤
          table.getD j 0) := by
  have hlen : st1.argumentsData.length = argumentsDataSize := by
    rw [receive_argumentsData st st1 s s1 hrecv]
    exact hst.2
  obtain ⟨table, hslice, -, -, hmid, -⟩ :=
    sliceArguments_spec function.getArgumentTypes 0 2 st1.argumentsData htypes
      (by simp only [argumentsDataSize]; omega) hlen
  have hstart : ∀ i, i < function.getArgumentTypes.length →
      table.getD i 0 = windowStart function.getArgumentTypes i := by
    intro i hi
    have := hmid i hi
    rw [Nat.zero_add] at this
    exact this
  refine ⟨table, ?_, hstart, ?_, ?_, ?_⟩
  · rw [loop_accepted getFunction buf st st1 s s1 hrecv hok]
    exact (dispatch_calls getFunction buf (computeChecks st1) s1 function table hcmd hfun
      hslice).1
  · intro h0
    rw [hstart 0 h0]
    simp [windowStart]
  · intro i hi
    rw [hstart (i + 1) hi, hstart i (by omega)]
    simp only [windowStart, sum_take_succ]
    omega
  · intro i j hij hj
    rw [hstart i (by omega), hstart j hj]
    have h1 := sum_take_le (argumentWidths function.getArgumentTypes) (i + 1) j (by omega)
    rw [sum_take_succ] at h1
    simp only [windowStart]
    omega

/-- Witness for C16: command 6 of `exampleThreeRegistry` has arguments of widths
1, 2 and 8; their windows start at the offsets 2, 3 and 5. -/
theorem argument_slicing_witness :
    ∃ table, (loop exampleThreeRegistry exampleBuf exampleState
          ⟨requestBytes 6 11 [1, 2, 3, 4, 5, 6, 7, 8, 9, 10, 11] 0xba 0xf1, []⟩).calls =
        [⟨6, (receivedState exampleState 6 11
          [6, 11, 1, 2, 3, 4, 5, 6, 7, 8, 9, 10, 11, 0xba, 0xf1]).data, table⟩] ∧
      table.getD 0 0 = 2 ∧ table.getD 1 0 = 3 ∧ table.getD 2 0 = 5 := by
  obtain ⟨table, h1, h2, -, -, -⟩ := argument_slicing exampleThreeRegistry exampleBuf
    exampleState
    (receivedState exampleState 6 11 [6, 11, 1, 2, 3, 4, 5, 6, 7, 8, 9, 10, 11, 0xba, 0xf1])
    ⟨requestBytes 6 11 [1, 2, 3, 4, 5, 6, 7, 8, 9, 10, 11] 0xba 0xf1, []⟩
    ⟨[], ackAndEcho 6 11⟩ exampleThree (by decide) (by decide) (by decide) (by decide) rfl
    (by decide) (by decide)
  exact ⟨table, h1, h2 0 (by decide), h2 1 (by decide), h2 2 (by decide)⟩

/-- Claim C17, closed form of `Fletcher16`: for every byte array and every count
`n` within it, `Fletcher16(data, n) = sum2 * 256 + sum1` with `sum1` the sum of
the first `n` bytes modulo 255 and `sum2` the sum of the first `n` bytes, the
byte at index `i` weighted by `n - i`, modulo 255.  Both halves are below 255,
the result is below `2 ^ 16`, and neither the additions of the loop nor the
final shift exceed the range of a 16-bit unsigned integer. -/
theorem Fletcher16_closed_form (data : List Nat) (n : Nat) (hn : n ≤ data.length)
    (hb : ∀ b ∈ data, b < 256) :
    Fletcher16 data n = closedSum2 data n * 256 + closedSum1 data n ∧
      closedSum1 data n < 255 ∧ closedSum2 data n < 255 ∧ Fletcher16 data n < 65536 ∧
      (∀ k, k < n →
        (Fletcher16.go data k 0 (0, 0)).1 + data.getD k 0 < 65536 ∧
        (Fletcher16.go data k 0 (0, 0)).2 +
          (Fletcher16.step (Fletcher16.go data k 0 (0, 0)) (data.getD k 0)).1 < 65536) ∧
      (Fletcher16.go data n 0 (0, 0)).2 <<< 8 < 65536 := by
  have _ := hn
  have hgo : ∀ k, (Fletcher16.go data k 0 (0, 0)).1 = closedSum1 data k ∧
      (Fletcher16.go data k 0 (0, 0)).2 = closedSum2 data k := by
    intro k
    have h := go_closed data hb k 0 0 0 (by decide) (by decide)
    simpa [closedSum1, closedSum2] using h
  have hs1 : ∀ k, closedSum1 data k < 255 := fun k => Nat.mod_lt _ (by decide)
  have hs2 : ∀ k, closedSum2 data k < 255 := fun k => Nat.mod_lt _ (by decide)
  have hval : Fletcher16 data n = closedSum2 data n * 256 + closedSum1 data n := by
    simp only [Fletcher16, (hgo n).1, (hgo n).2]
    rw [Nat.shiftLeft_eq, Nat.mul_comm, ← Nat.mul_add_lt_is_or (by have := hs1 n; omega)]
    have := hs1 n
    have := hs2 n
    omega
  refine ⟨hval, hs1 n, hs2 n, ?_, ?_, ?_⟩
  · rw [hval]
    have := hs1 n
    have := hs2 n
    omega
  · intro k _
    have hd := getD_lt_of_bytes data hb k
    have h1 := hs1 k
    have h2 := hs2 k
    rw [← (hgo k).1] at h1
    rw [← (hgo k).2] at h2
    constructor
    · omega
    · simp only [Fletcher16.step]
      omega
  · rw [Nat.shiftLeft_eq, (hgo n).2]
    have := hs2 n
    omega

/-- Witness for C17: the first four bytes of `03 02 34 12 28 8C`. -/
theorem Fletcher16_closed_form_witness :
    Fletcher16 [0x03, 0x02, 0x34, 0x12, 0x28, 0x8c] 4 = 140 * 256 + 75 ∧
      closedSum1 [0x03, 0x02, 0x34, 0x12, 0x28, 0x8c] 4 = 75 ∧
      closedSum2 [0x03, 0x02, 0x34, 0x12, 0x28, 0x8c] 4 = 140 := by
  have h := (Fletcher16_closed_form [0x03, 0x02, 0x34, 0x12, 0x28, 0x8c] 4 (by decide)
    (by decide)).1
  refine ⟨?_, by decide, by decide⟩
  rw [h]
  decide

/-- Claim C18, buffer bounds under the length invariant, for a declared length
`len` of at most 124.  The store indices of the transfer loop (`0` to `len + 3`),
the two indices of the footer extraction and the read indices of `Fletcher16`
(`0` to `len + 1`) are all below 128, hence inside the buffer, and the last
exclude the footer positions.  These are the indices the cycle uses: the frame
phase with that length stops only by timeout, leaving the state untouched; when
the frame reader of `loop` proceeds, the buffer differs from the reset buffer
only at the store indices, the footer bytes are the buffer bytes at `len + 2`
and `len + 3`, and the checksum of the integrity check is `Fletcher16` over
`len + 2` bytes, the same on every buffer that agrees at the read indices; and
at the end of a cycle with that length the bytes from index 128 on are those
the cycle started with. -/
theorem buffer_bounds (getFunction : Nat → Option Function) (buf : StackBuf)
    (st : DriverState) (s : Serial) (len : Nat) (hlen : len ≤ 124) :
    ((∀ i ∈ readPayloadIndices (len + 4) 0, i < 128) ∧
      (∀ i ∈ footerIndices len, i < 128) ∧
      (∀ i ∈ Fletcher16.indices (len + 2) 0, i < 128 ∧ i ∉ footerIndices len) ∧
      128 ≤ dataRealSize) ∧
    (st.lengthByte = len →
      ∀ o, readFrame st s = .abort o → o.status = .returned ∧ o.st = st) ∧
    (∀ st1 s1, receive st s = .proceed st1 s1 → st1.lengthByte = len →
      (∀ j, j ∉ readPayloadIndices (len + 4) 0 →
        st1.data.getD j 0 = (resetData st.data).getD j 0) ∧
      st1.fletcherByte1 = st1.data.getD (len + 2) 0 ∧
      st1.fletcherByte2 = st1.data.getD (len + 3) 0 ∧
      (computeChecks st1).fletcher16 = Fletcher16 st1.data (len + 2) ∧
      ∀ other : List Nat,
        (∀ i ∈ Fletcher16.indices (len + 2) 0, other.getD i 0 = st1.data.getD i 0) →
        (computeChecks { st1 with data := other }).fletcher16 = (computeChecks st1).fletcher16 ∧
          (computeChecks { st1 with data := other }).c0 = (computeChecks st1).c0 ∧
          (computeChecks { st1 with data := other }).c1 = (computeChecks st1).c1) ∧
    ((loop getFunction buf st s).st.lengthByte = len →
      ∀ j, 128 ≤ j → (loop getFunction buf st s).st.data.getD j 0 = st.data.getD j 0) := by
  refine ⟨⟨?_, ?_, ?_, by decide⟩, ?_, ?_, ?_⟩
  · intro i hi
    rw [mem_readPayloadIndices] at hi
    omega
  · intro i hi
    simp only [footerIndices, List.mem_cons, List.mem_singleton, List.mem_nil_iff,
      or_false] at hi
    omega
  · intro i hi
    rw [mem_Fletcher16_indices] at hi
    simp only [footerIndices, List.mem_cons, List.mem_singleton, List.mem_nil_iff, or_false]
    omega
  · intro hl o ho
    exact readFrame_abort st s o (by rw [hl]; unfold dataRealSize; omega) ho
  · intro st1 s1 hrecv hl
    obtain ⟨h1, h2, h3⟩ := receive_stores st st1 s s1 hrecv
    rw [hl] at h1 h2 h3
    refine ⟨h1, h2, h3, ?_, ?_⟩
    · simp only [computeChecks, hl]
    · intro other hother
      have := computeChecks_reads st1 other (by rw [hl]; exact hother)
      exact this
  · intro hl j hj
    obtain ⟨e1, e2⟩ := loop_st getFunction buf st s
    rw [e1]
    exact receive_st st s (by rw [← e2, hl]; exact hlen) j hj

/-- Witness for C18: the cycle of command 2 with declared length 1 leaves the
bytes from index 128 on as they were, and its first footer byte is the buffer
byte at index 3. -/
theorem buffer_bounds_witness :
    (∀ j, 128 ≤ j → (loop exampleRegistry exampleBuf exampleState
        ⟨requestBytes 2 1 [0x01] 0xf2 0x09, []⟩).st.data.getD j 0 =
      exampleState.data.getD j 0) ∧
      (receivedState exampleState 2 1 [2, 1, 0x01, 0xf2, 0x09]).fletcherByte1 =
        (receivedState exampleState 2 1 [2, 1, 0x01, 0xf2, 0x09]).data.getD (1 + 2) 0 := by
  have h := buffer_bounds exampleRegistry exampleBuf exampleState
    ⟨requestBytes 2 1 [0x01] 0xf2 0x09, []⟩ 1 (by decide)
  exact ⟨h.2.2.2 (by decide),
    (h.2.2.1 (receivedState exampleState 2 1 [2, 1, 0x01, 0xf2, 0x09]) ⟨[], ackAndEcho 2 1⟩
      (by decide) (by decide)).2.1⟩

/-- Claim C19, evaluated on the code: the frame of command 2, whose callable
returns one byte, is run twice.  The first run starts from the member state and
from the content of `buf` that a cycle answering the 16-bit value `0x1336`
leaves behind, the second from another member state and another content of
`buf`.  The outputs differ: the first ends with `36`, the low byte of the
earlier answer, the second with `AA`.  The byte comes from the uninitialised
local `buf`, which `Serial.write(buf, returnTypeSize)` sends after the result
byte. -/
theorem stack_residue_reaches_output :
    exampleBufAfter = ⟨0x36, 0x13, 0xcc, 0xdd⟩ ∧
      (loop exampleRegistry exampleBufAfter exampleStateAfter
        ⟨requestBytes 2 1 [0x01] 0xf2 0x09, []⟩).serial.tx =
          ackAndEcho 2 1 ++ [0xf9, 0x01, 0x00, 0x36] ∧
      (loop exampleRegistry exampleBuf exampleState
        ⟨requestBytes 2 1 [0x01] 0xf2 0x09, []⟩).serial.tx =
          ackAndEcho 2 1 ++ [0xf9, 0x01, 0x00, 0xaa] ∧
      (loop exampleRegistry exampleBufAfter exampleStateAfter
        ⟨requestBytes 2 1 [0x01] 0xf2 0x09, []⟩).serial.tx ≠
        (loop exampleRegistry exampleBuf exampleState
          ⟨requestBytes 2 1 [0x01] 0xf2 0x09, []⟩).serial.tx := by
  decide

/-- Claim C20, sync consumption: when four bytes are available and the first
byte that differs from the sync pattern is at position `k`, the cycle consumes
exactly the `k + 1` bytes up to and including it and leaves the rest in the
transport. -/
theorem sync_consumption (getFunction : Nat → Option Function) (buf : StackBuf)
    (st : DriverState) (b0 b1 b2 b3 : Nat) (rest tx0 : List Nat) (k : Nat)
    (h0 : b0 < 256) (h1 : b1 < 256) (h2 : b2 < 256) (h3 : b3 < 256) (hk : k < 4)
    (hpre : ∀ i, i < k → [b0, b1, b2, b3].getD i 0 = syncPattern.getD i 0)
    (hmis : [b0, b1, b2, b3].getD k 0 ≠ syncPattern.getD k 0) :
    (loop getFunction buf st ⟨b0 :: b1 :: b2 :: b3 :: rest, tx0⟩).serial.rx =
      (b0 :: b1 :: b2 :: b3 :: rest).drop (k + 1) := by
  have hs := synchronize_four { st with data := resetData st.data } b0 b1 b2 b3 rest tx0
    h0 h1 h2 h3
  interval_cases k
  · have c0 : b0 ≠ 0xff := by simpa [syncPattern] using hmis
    rw [if_pos c0] at hs
    rw [loop_of_abort _ _ _ _ _ (receive_of_sync_abort _ _ _ hs)]
    rfl
  · have e0 : b0 = 0xff := by simpa [syncPattern] using hpre 0 (by omega)
    have c1 : b1 ≠ 0xfe := by simpa [syncPattern] using hmis
    rw [if_neg (by simp [e0]), if_pos c1] at hs
    rw [loop_of_abort _ _ _ _ _ (receive_of_sync_abort _ _ _ hs)]
    rfl
  · have e0 : b0 = 0xff := by simpa [syncPattern] using hpre 0 (by omega)
    have e1 : b1 = 0xfe := by simpa [syncPattern] using hpre 1 (by omega)
    have c2 : b2 ≠ 0xfd := by simpa [syncPattern] using hmis
    rw [if_neg (by simp [e0]), if_neg (by simp [e1]), if_pos c2] at hs
    rw [loop_of_abort _ _ _ _ _ (receive_of_sync_abort _ _ _ hs)]
    rfl
  · have e0 : b0 = 0xff := by simpa [syncPattern] using hpre 0 (by omega)
    have e1 : b1 = 0xfe := by simpa [syncPattern] using hpre 1 (by omega)
    have e2 : b2 = 0xfd := by simpa [syncPattern] using hpre 2 (by omega)
    have c3 : b3 ≠ 0xfc := by simpa [syncPattern] using hmis
    rw [if_neg (by simp [e0]), if_neg (by simp [e1]), if_neg (by simp [e2]), if_pos c3] at hs
    rw [loop_of_abort _ _ _ _ _ (receive_of_sync_abort _ _ _ hs)]
    rfl

/-- Witness for C20: on `FF FE FD 00` all four bytes are consumed, on
`00 FE FD FC` only the first. -/
theorem sync_consumption_witness :
    (loop exampleRegistry exampleBuf exampleState
        ⟨[0xff, 0xfe, 0xfd, 0x00, 0x11, 0x22], []⟩).serial.rx = [0x11, 0x22] ∧
      (loop exampleRegistry exampleBuf exampleState
        ⟨[0x00, 0xfe, 0xfd, 0xfc, 0x11, 0x22], []⟩).serial.rx =
          [0xfe, 0xfd, 0xfc, 0x11, 0x22] :=
  ⟨sync_consumption exampleRegistry exampleBuf exampleState 0xff 0xfe 0xfd 0x00
      [0x11, 0x22] [] 3 (by decide) (by decide) (by decide) (by decide) (by decide)
      (by decide) (by decide),
    sync_consumption exampleRegistry exampleBuf exampleState 0x00 0xfe 0xfd 0xfc
      [0x11, 0x22] [] 0 (by decide) (by decide) (by decide) (by decide) (by decide)
      (by decide) (by decide)⟩

end DynamicDriver
